import Mathlib

/-!
Shallow embedding of `source/anuga/abstract_2d_finite_volumes/generic_domain.py`
(the generic time-evolution driver of the ANUGA 2-D finite-volume solver).

Modelling conventions:
* machine floats are modelled as rationals (`ℚ`);
* numpy arrays as lists, with `getD`/`set` for indexed access (out-of-range
  reads default to `0` where numpy would raise an `IndexError`; no claim
  concerns out-of-range indices);
* Python dicts as association lists with first-occurrence lookup;
* raised exceptions as `Except.error` carrying the message;
* the external collaborators (`compute_fluxes` of the physics subclass, the
  forcing terms, and the per-quantity kernels of the external `Quantity`
  class) as explicit function parameters bundled in `Kernels`.
-/

namespace Anuga

/-- A per-quantity field (external `Quantity` instance as seen by the driver):
centroid / vertex / edge / boundary arrays plus the backup buffer used by
`backup_centroid_values` and `saxpy_centroid_values`. -/
structure Quantity where
  centroid_values : List ℚ
  vertex_values : List (List ℚ)
  edge_values : List (List ℚ)
  boundary_values : List ℚ
  centroid_backup_values : List ℚ
deriving DecidableEq

instance : Inhabited Quantity := ⟨⟨[], [], [], [], []⟩⟩

/-- A boundary object: `evaluate(vol_id, edge_id)` returns a vector of values
of conserved length or evolved length. -/
structure Boundary where
  evaluate : ℕ → ℕ → List ℚ

/-- The driver state: the attributes of `Generic_Domain` that the claims
concern.  `_order_` is the currently active spatial order, `timetepping_method`
is the misspelled attribute that the integer branch of
`set_timestepping_method` writes (sic). -/
structure Domain where
  conserved_quantities : List String
  evolved_quantities : List String
  quantities : List (String × Quantity)
  boundary : List ((ℕ × ℕ) × String)
  boundary_map : Option (List (String × Option Boundary))
  boundary_objects : Option (List ((ℕ × ℕ) × Option Boundary))
  neighbours : ℕ → ℕ → ℤ
  number_of_elements : ℕ
  number_of_full_triangles : ℕ
  max_speed : List ℚ
  protect_against_isolated_degenerate_timesteps : Bool
  processor : ℕ
  full_send_dict : List (ℕ × List ℕ)
  ghost_recv_dict : List (ℕ × List ℕ)
  checkpoint : Bool
  time : ℚ
  starttime : ℚ
  finaltime : Option ℚ
  yieldtime : ℚ
  timestep : ℚ
  flux_timestep : ℚ
  CFL : ℚ
  evolve_min_timestep : ℚ
  evolve_max_timestep : ℚ
  recorded_min_timestep : ℚ
  recorded_max_timestep : ℚ
  smallsteps : ℕ
  max_smallsteps : ℕ
  _order_ : ℕ
  default_order : ℕ
  timestepping_method : String
  timetepping_method : String
  number_of_steps : ℕ
  number_of_first_order_steps : ℕ

/-- External kernels: `compute_fluxes` must be overridden by the physics
subclass (in `Generic_Domain` itself it raises); `compute_forcing_terms`
applies the registered forcing callables; `quantity_update` is the external
`Quantity.update(timestep)`; the extrapolators are the external
`Quantity.extrapolate_first_order` / `extrapolate_second_order`. -/
structure Kernels where
  compute_fluxes : Domain → Domain
  compute_forcing_terms : Domain → Domain
  quantity_update : ℚ → Quantity → Quantity
  extrapolate_first_order : Quantity → Quantity
  extrapolate_second_order : Quantity → Quantity

/-- `set_time(time)`: store the given value as the relative model time. -/
def set_time (d : Domain) (time : ℚ) : Domain := { d with time := time }

/-- `get_time()`: return the absolute model time `self.time + self.starttime`. -/
def get_time (d : Domain) : ℚ := d.time + d.starttime

/-- `get_timestepping_method()`: return `self.timestepping_method`. -/
def get_timestepping_method (d : Domain) : String := d.timestepping_method

/-- The argument of `set_timestepping_method`: a name or an integer selector. -/
inductive TMethodArg
  | strArg (s : String)
  | intArg (n : ℕ)

/-- `set_timestepping_method(timestepping_method)`: accept one of the names
`euler`, `rk2`, `rk3`, or an integer 1..3; anything else raises.  The integer
branch assigns `self.timetepping_method` (sic, the source misspells the
attribute), leaving `self.timestepping_method` untouched. -/
def set_timestepping_method (d : Domain) (m : TMethodArg) : Except String Domain :=
  let methods := ["euler", "rk2", "rk3"]
  match m with
  | .strArg s =>
    if s ∈ methods then .ok { d with timestepping_method := s }
    else .error (s ++ " is an incorrect timestepping type")
  | .intArg n =>
    if n ∈ [1, 2, 3] then .ok { d with timetepping_method := methods.getD (n - 1) "" }
    else .error (toString n ++ " is an incorrect timestepping type")

/-- `get_quantity(name)`: `self.quantities[name]`, a `KeyError` if absent. -/
def get_quantity (d : Domain) (name : String) : Except String Quantity :=
  match d.quantities.lookup name with
  | some q => .ok q
  | none => .error ("KeyError: " ++ name)

/-- Shared body of `get_conserved_quantities` / `get_evolved_quantities`: both
`vertex` and `edge` given is an error; otherwise build the vector whose entry
`i` is the vertex / edge / centroid value of the quantity named at position `i`
of `names`, at volume `vol_id`. -/
def get_quantity_vector (d : Domain) (names : List String) (vol_id : ℕ)
    (vertex edge : Option ℕ) : Except String (List ℚ) :=
  if vertex.isSome && edge.isSome then
    .error "Values for both vertex and edge was specified. Only one (or none) is allowed."
  else
    names.mapM (fun name => do
      let Q ← get_quantity d name
      match vertex with
      | some v => pure ((Q.vertex_values.getD vol_id []).getD v 0)
      | none =>
        match edge with
        | some e => pure ((Q.edge_values.getD vol_id []).getD e 0)
        | none => pure (Q.centroid_values.getD vol_id 0))

/-- `get_conserved_quantities(vol_id, vertex, edge)`. -/
def get_conserved_quantities (d : Domain) (vol_id : ℕ) (vertex edge : Option ℕ) :
    Except String (List ℚ) :=
  get_quantity_vector d d.conserved_quantities vol_id vertex edge

/-- `get_evolved_quantities(vol_id, vertex, edge)`. -/
def get_evolved_quantities (d : Domain) (vol_id : ℕ) (vertex edge : Option ℕ) :
    Except String (List ℚ) :=
  get_quantity_vector d d.evolved_quantities vol_id vertex edge

/-- A minimal concrete domain used as the base point of concrete evaluations. -/
def baseDomain : Domain where
  conserved_quantities := []
  evolved_quantities := []
  quantities := []
  boundary := []
  boundary_map := none
  boundary_objects := none
  neighbours := fun _ _ => 0
  number_of_elements := 0
  number_of_full_triangles := 0
  max_speed := []
  protect_against_isolated_degenerate_timesteps := false
  processor := 0
  full_send_dict := []
  ghost_recv_dict := []
  checkpoint := false
  time := 0
  starttime := 0
  finaltime := none
  yieldtime := 0
  timestep := 0
  flux_timestep := 0
  CFL := 1
  evolve_min_timestep := 1 / 10 ^ 6
  evolve_max_timestep := 10
  recorded_min_timestep := 0
  recorded_max_timestep := 0
  smallsteps := 0
  max_smallsteps := 10
  _order_ := 1
  default_order := 1
  timestepping_method := "euler"
  timetepping_method := ""
  number_of_steps := 0
  number_of_first_order_steps := 0

/-- Claim C10: `set_time` stores the relative model time while `get_time`
returns `time + starttime`, so `set_time(t); get_time()` yields
`t + starttime`, equal to `t` exactly when `starttime = 0`. -/
theorem set_time_get_time_asymmetry (d : Domain) (t : ℚ) :
    get_time (set_time d t) = t + d.starttime ∧
    (get_time (set_time d t) = t ↔ d.starttime = 0) := by
  refine ⟨rfl, ?_⟩
  show t + d.starttime = t ↔ d.starttime = 0
  exact add_right_eq_self

/-- Claim C4 (code bug): `set_timestepping_method` accepts exactly the three
names and the integers 1..3, but the integer branch writes the misspelled
attribute `timetepping_method`, so `get_timestepping_method()` still returns
the previous value (here `euler` instead of `rk2`). -/
theorem set_timestepping_method_int_typo :
    ∃ d, set_timestepping_method baseDomain (.intArg 2) = .ok d ∧
      get_timestepping_method d = "euler" ∧
      d.timetepping_method = "rk2" ∧
      (∃ msg, set_timestepping_method baseDomain (.strArg "foo") = .error msg) ∧
      (∃ msg, set_timestepping_method baseDomain (.intArg 7) = .error msg) ∧
      set_timestepping_method baseDomain (.strArg "rk2") =
        .ok { baseDomain with timestepping_method := "rk2" } :=
  ⟨_, rfl, rfl, rfl, ⟨_, rfl⟩, ⟨_, rfl⟩, rfl⟩

/-- Evaluating the quantity-vector loop when every requested name is present in
the quantity dictionary. -/
lemma mapM_get_quantity (d : Domain) (f : Quantity → ℚ) :
    ∀ names : List String,
      (∀ n ∈ names, (d.quantities.lookup n).isSome) →
      (names.mapM (fun name =>
          (get_quantity d name).bind (fun Q => pure (f Q))) : Except String (List ℚ)) =
        .ok (names.map (fun n => f ((d.quantities.lookup n).getD default)))
  | [], _ => rfl
  | n :: names, h => by
    have hn : (d.quantities.lookup n).isSome := h n (by simp)
    obtain ⟨q, hq⟩ := Option.isSome_iff_exists.mp hn
    have hget : get_quantity d n = .ok q := by simp [get_quantity, hq]
    have ih := mapM_get_quantity d f names (fun x hx => h x (by simp [hx]))
    rw [List.mapM_cons, hget, ih]
    simp [hq]
    rfl

/-- Claim C9: `get_conserved_quantities` and `get_evolved_quantities` raise
when both `vertex` and `edge` are supplied; with neither supplied they return
the centroid values, as a vector whose entry `i` comes from the quantity named
at position `i` of the respective name list (hence of the list's length). -/
theorem get_quantities_vertex_edge_spec (d : Domain) (vol_id v e : ℕ)
    (hc : ∀ n ∈ d.conserved_quantities, (d.quantities.lookup n).isSome)
    (he : ∀ n ∈ d.evolved_quantities, (d.quantities.lookup n).isSome) :
    (∃ m, get_conserved_quantities d vol_id (some v) (some e) = .error m) ∧
    (∃ m, get_evolved_quantities d vol_id (some v) (some e) = .error m) ∧
    get_conserved_quantities d vol_id none none =
      .ok (d.conserved_quantities.map (fun n =>
        ((d.quantities.lookup n).getD default).centroid_values.getD vol_id 0)) ∧
    get_evolved_quantities d vol_id none none =
      .ok (d.evolved_quantities.map (fun n =>
        ((d.quantities.lookup n).getD default).centroid_values.getD vol_id 0)) := by
  refine ⟨⟨_, rfl⟩, ⟨_, rfl⟩, ?_, ?_⟩
  · have := mapM_get_quantity d (fun Q => Q.centroid_values.getD vol_id 0)
      d.conserved_quantities hc
    simpa [get_conserved_quantities, get_quantity_vector] using this
  · have := mapM_get_quantity d (fun Q => Q.centroid_values.getD vol_id 0)
      d.evolved_quantities he
    simpa [get_evolved_quantities, get_quantity_vector] using this

/-- A one-quantity sample field. -/
def qStage : Quantity := ⟨[5], [[1, 2, 3]], [[4, 5, 6]], [0], []⟩

/-- A one-quantity concrete domain. -/
def dC9 : Domain := { baseDomain with
  conserved_quantities := ["stage"]
  evolved_quantities := ["stage"]
  quantities := [("stage", qStage)] }

/-- Witness for claim C9 at a concrete one-quantity domain. -/
theorem get_quantities_vertex_edge_spec_witness :
    (∃ m, get_conserved_quantities dC9 0 (some 0) (some 0) = .error m) ∧
    (∃ m, get_evolved_quantities dC9 0 (some 0) (some 0) = .error m) ∧
    get_conserved_quantities dC9 0 none none =
      .ok (dC9.conserved_quantities.map (fun n =>
        ((dC9.quantities.lookup n).getD default).centroid_values.getD 0 0)) ∧
    get_evolved_quantities dC9 0 none none =
      .ok (dC9.evolved_quantities.map (fun n =>
        ((dC9.quantities.lookup n).getD default).centroid_values.getD 0 0)) :=
  get_quantities_vertex_edge_spec dC9 0 0 0 (by decide) (by decide)

/-- Lexicographic order on `(vol_id, edge_id)` keys, as produced by Python's
`list.sort()` on 2-tuples. -/
def keyLe (a b : ℕ × ℕ) : Prop := a.1 < b.1 ∨ (a.1 = b.1 ∧ a.2 ≤ b.2)

/-- Strict lexicographic order on `(vol_id, edge_id)` keys. -/
def keyLt (a b : ℕ × ℕ) : Prop := a.1 < b.1 ∨ (a.1 = b.1 ∧ a.2 < b.2)

instance : DecidableRel keyLe := fun a b => by unfold keyLe; infer_instance

instance : DecidableRel keyLt := fun a b => by unfold keyLt; infer_instance

instance : IsTotal (ℕ × ℕ) keyLe := ⟨by
  intro a b
  rcases Nat.lt_trichotomy a.1 b.1 with h | h | h
  · exact Or.inl (Or.inl h)
  · rcases Nat.le_total a.2 b.2 with h2 | h2
    · exact Or.inl (Or.inr ⟨h, h2⟩)
    · exact Or.inr (Or.inr ⟨h.symm, h2⟩)
  · exact Or.inr (Or.inl h)⟩

instance : IsTrans (ℕ × ℕ) keyLe := ⟨by
  intro a b c hab hbc
  rcases hab with h1 | ⟨h1, h2⟩ <;> rcases hbc with h3 | ⟨h3, h4⟩ <;>
    unfold keyLe <;> omega⟩

lemma keyLe_of_keyLt {a b : ℕ × ℕ} (h : keyLt a b) : keyLe a b := by
  rcases h with h | ⟨h1, h2⟩
  · exact Or.inl h
  · exact Or.inr ⟨h1, le_of_lt h2⟩

lemma keyLt_of_keyLe_of_ne {a b : ℕ × ℕ} (h : keyLe a b) (hne : a ≠ b) : keyLt a b := by
  rcases h with h | ⟨h1, h2⟩
  · exact Or.inl h
  · rcases lt_or_eq_of_le h2 with h3 | h3
    · exact Or.inr ⟨h1, h3⟩
    · exact absurd (Prod.ext h1 h3) hne

lemma keyLt_irrefl (a : ℕ × ℕ) : ¬ keyLt a a := by
  rintro (h | ⟨_, h⟩) <;> omega

lemma keyLt_trans {a b c : ℕ × ℕ} (h1 : keyLt a b) (h2 : keyLt b c) : keyLt a c := by
  rcases h1 with h1 | ⟨h1a, h1b⟩ <;> rcases h2 with h2 | ⟨h2a, h2b⟩ <;>
    unfold keyLt <;> omega

/-- Python dict assignment `l[k] = v` on an association list: replace the first
binding of `k`, or append a new binding. -/
def alist_set {α : Type} (l : List (String × α)) (k : String) (v : α) :
    List (String × α) :=
  match l with
  | [] => [(k, v)]
  | (k0, v0) :: rest => if k0 = k then (k, v) :: rest else (k0, v0) :: alist_set rest k v

/-- The merge loop of `set_boundary` on an existing map:
`for key in boundary_map.keys(): self.boundary_map[key] = boundary_map[key]`. -/
def update_boundary_map (old new_map : List (String × Option Boundary)) :
    List (String × Option Boundary) :=
  new_map.foldl (fun acc kv => alist_set acc kv.1 kv.2) old

/-- The tag map a call `set_boundary(d, m)` operates with: `m` itself on the
first call, otherwise the stored map updated by `m`. -/
def merged_boundary_map (d : Domain) (m : List (String × Option Boundary)) :
    List (String × Option Boundary) :=
  match d.boundary_map with
  | none => m
  | some old => update_boundary_map old m

/-- `get_boundary_tags()` (mesh accessor, external): the distinct tags of the
mesh boundary dictionary. -/
def get_boundary_tags (d : Domain) : List String :=
  (d.boundary.map Prod.snd).dedup

/-- The error message raised by `set_boundary` for a tag not bound to a
boundary object; it lists all boundary tags of the domain. -/
def tag_error_msg (d : Domain) (tag : String) : String :=
  "ERROR (domain.py): Tag " ++ tag ++ " has not been bound to a boundary object. " ++
  "All boundary tags defined in domain must appear in set_boundary. The tags are: " ++
  String.intercalate ", " (get_boundary_tags d)

/-- One iteration of the rebuild loop of `set_boundary`: look the edge's tag up
in the merged map; an unbound tag raises, `None` is skipped, and a boundary
object `B` is appended to `boundary_objects` while
`neighbours[vol_id][edge_id]` is set to `-len(boundary_objects)`. -/
def set_boundary_step (d : Domain) (bmap : List (String × Option Boundary))
    (acc : List ((ℕ × ℕ) × Option Boundary) × (ℕ → ℕ → ℤ)) (key : ℕ × ℕ) :
    Except String (List ((ℕ × ℕ) × Option Boundary) × (ℕ → ℕ → ℤ)) :=
  match d.boundary.lookup key with
  | none => .error "KeyError: boundary"
  | some tag =>
    match bmap.lookup tag with
    | none => .error (tag_error_msg d tag)
    | some none => .ok acc
    | some (some B) =>
      let objs := acc.1 ++ [(key, some B)]
      .ok (objs, fun v e => if v = key.1 ∧ e = key.2 then -(objs.length : ℤ) else acc.2 v e)

/-- `set_boundary(boundary_map)`: store or merge the tag map, then rebuild
`boundary_objects` from scratch by iterating the boundary edges in sorted
`(vol_id, edge_id)` order. -/
def set_boundary (d : Domain) (m : List (String × Option Boundary)) :
    Except String Domain := do
  let bmap := merged_boundary_map d m
  let x := List.insertionSort keyLe (d.boundary.map Prod.fst)
  let r ← x.foldlM (set_boundary_step d bmap) ([], d.neighbours)
  pure { d with boundary_map := some bmap, boundary_objects := some r.1,
                neighbours := r.2 }

lemma lookup_isSome_of_mem_keys {α β : Type} [BEq α] [LawfulBEq α]
    (l : List (α × β)) (k : α) (h : k ∈ l.map Prod.fst) : (l.lookup k).isSome := by
  induction l with
  | nil => simp at h
  | cons a l ih =>
    rcases List.mem_cons.mp h with h0 | h0
    · simp only [List.lookup]
      have : (k == a.1) = true := beq_iff_eq.mpr h0
      simp [this]
    · simp only [List.lookup]
      cases hba : k == a.1
      · exact ih h0
      · simp

lemma lookup_eq_of_mem_nodup {α β : Type} [BEq α] [LawfulBEq α]
    (l : List (α × β)) (hnd : (l.map Prod.fst).Nodup) {k : α} {v : β}
    (h : (k, v) ∈ l) : l.lookup k = some v := by
  induction l with
  | nil => simp at h
  | cons a l ih =>
    rcases List.mem_cons.mp h with h0 | h0
    · simp only [List.lookup, ← h0]
      simp
    · have hk : k ∈ l.map Prod.fst := List.mem_map.mpr ⟨(k, v), h0, rfl⟩
      have ha : a.1 ∉ l.map Prod.fst := (List.nodup_cons.mp (by simpa using hnd)).1
      have hne : (k == a.1) = false := by
        apply beq_eq_false_iff_ne.mpr
        intro hkv
        exact ha (hkv ▸ hk)
      simp only [List.lookup, hne]
      exact ih (List.nodup_cons.mp (by simpa using hnd)).2 h0

lemma pairwise_keyLt_of_sorted_nodup (l : List (ℕ × ℕ))
    (hs : l.Pairwise keyLe) (hn : l.Nodup) : l.Pairwise keyLt :=
  (hs.and hn).imp (fun h => keyLt_of_keyLe_of_ne h.1 h.2)

/-- Fold invariant for the `set_boundary` rebuild loop: a strictly ascending
prefix of entries whose `neighbours` slots hold the negated 1-based positions,
with the `None`-tagged edges excluded, stays that way. -/
lemma set_boundary_fold_spec (d : Domain) (bmap : List (String × Option Boundary))
    (hnd : (d.boundary.map Prod.fst).Nodup) :
    ∀ (xs : List (ℕ × ℕ)) (acc : List ((ℕ × ℕ) × Option Boundary) × (ℕ → ℕ → ℤ)) r,
      xs.Pairwise keyLt →
      (acc.1.map Prod.fst).Pairwise keyLt →
      (∀ p ∈ acc.1.map Prod.fst, ∀ q ∈ xs, keyLt p q) →
      (∀ i entry, acc.1.get? i = some entry →
        acc.2 entry.1.1 entry.1.2 = -((i : ℤ) + 1)) →
      (∀ key tag, (key, tag) ∈ d.boundary → bmap.lookup tag = some none →
        key ∉ acc.1.map Prod.fst) →
      xs.foldlM (set_boundary_step d bmap) acc = .ok r →
      (r.1.map Prod.fst).Pairwise keyLt ∧
      (∀ i entry, r.1.get? i = some entry →
        r.2 entry.1.1 entry.1.2 = -((i : ℤ) + 1)) ∧
      (∀ key tag, (key, tag) ∈ d.boundary → bmap.lookup tag = some none →
        key ∉ r.1.map Prod.fst) := by
  intro xs
  induction xs with
  | nil =>
    intro acc r _ h1 _ h3 h4 hfold
    simp only [List.foldlM_nil] at hfold
    obtain rfl : acc = r := by simpa [pure, Except.pure] using hfold
    exact ⟨h1, h3, h4⟩
  | cons k xs ih =>
    intro acc r hpw h1 h2 h3 h4 hfold
    rw [List.foldlM_cons] at hfold
    obtain ⟨hk_xs, hpw_xs⟩ := List.pairwise_cons.mp hpw
    cases hbl : d.boundary.lookup k with
    | none => simp [set_boundary_step, hbl, bind, Except.bind] at hfold
    | some tag =>
      cases hbm : bmap.lookup tag with
      | none => simp [set_boundary_step, hbl, hbm, bind, Except.bind] at hfold
      | some ob =>
        cases ob with
        | none =>
          simp only [set_boundary_step, hbl, hbm, bind, Except.bind] at hfold
          exact ih acc r hpw_xs h1
            (fun p hp q hq => h2 p hp q (List.mem_cons.mpr (Or.inr hq))) h3 h4 hfold
        | some B =>
          simp only [set_boundary_step, hbl, hbm, bind, Except.bind] at hfold
          set objs := acc.1 ++ [(k, some B)] with hobjs
          set nb : ℕ → ℕ → ℤ := fun v e =>
            if v = k.1 ∧ e = k.2 then -((objs.length : ℤ)) else acc.2 v e with hnb
          refine ih (objs, nb) r hpw_xs ?_ ?_ ?_ ?_ hfold
          · -- strictly ascending after the append
            rw [hobjs]
            simp only [List.map_append, List.map_cons, List.map_nil]
            refine List.pairwise_append.mpr ⟨h1, by simp, ?_⟩
            intro p hp q hq
            simp only [List.mem_singleton] at hq
            rw [hq]
            exact h2 p hp k (List.mem_cons_self _ _)
          · -- everything in the accumulator precedes the remaining keys
            intro p hp q hq
            rw [hobjs] at hp
            simp only [List.map_append, List.map_cons, List.map_nil,
              List.mem_append, List.mem_singleton] at hp
            rcases hp with hp | hp
            · exact h2 p hp q (List.mem_cons.mpr (Or.inr hq))
            · subst hp
              exact hk_xs q hq
          · -- neighbour slots: old entries untouched, new entry gets -(len)
            intro i entry hget
            rcases Nat.lt_trichotomy i acc.1.length with hi | hi | hi
            · have hold : acc.1.get? i = some entry := by
                rw [hobjs] at hget
                rwa [List.get?_append hi] at hget
              have hmem : entry.1 ∈ acc.1.map Prod.fst :=
                List.mem_map.mpr ⟨entry, List.get?_mem hold, rfl⟩
              have hlt : keyLt entry.1 k := h2 entry.1 hmem k (List.mem_cons_self _ _)
              have hne : ¬ (entry.1.1 = k.1 ∧ entry.1.2 = k.2) := by
                intro hEq
                have : entry.1 = k := Prod.ext hEq.1 hEq.2
                exact keyLt_irrefl k (this ▸ hlt)
              rw [hnb]
              simp only [hne, if_false]
              exact h3 i entry hold
            · subst hi
              have : objs.get? acc.1.length = some (k, some B) := by
                rw [hobjs]
                exact List.get?_concat_length acc.1 (k, some B)
              rw [hget] at this
              obtain rfl : (k, some B) = entry := by simpa using this.symm
              rw [hnb]
              simp [hobjs]
            · exfalso
              have : objs.get? i = none := by
                apply List.get?_eq_none.mpr
                rw [hobjs]
                simp only [List.length_append, List.length_cons, List.length_nil]
                omega
              rw [hget] at this
              cases this
          · -- `None`-tagged edges produce no entry
            intro key tag0 hmem hnone
            rw [hobjs]
            simp only [List.map_append, List.map_cons, List.map_nil,
              List.mem_append, List.mem_singleton]
            rintro (hin | hin)
            · exact h4 key tag0 hmem hnone hin
            · subst hin
              have : d.boundary.lookup key = some tag0 :=
                lookup_eq_of_mem_nodup d.boundary hnd hmem
              rw [hbl] at this
              obtain rfl : tag = tag0 := by simpa using this
              rw [hbm] at hnone
              simp at hnone

/-- If some boundary edge's tag is absent from the map, the rebuild loop raises
the tag error. -/
lemma set_boundary_fold_error (d : Domain) (bmap : List (String × Option Boundary)) :
    ∀ (xs : List (ℕ × ℕ)) (acc : List ((ℕ × ℕ) × Option Boundary) × (ℕ → ℕ → ℤ)),
      (∀ k ∈ xs, (d.boundary.lookup k).isSome) →
      (∃ k tag, k ∈ xs ∧ d.boundary.lookup k = some tag ∧ bmap.lookup tag = none) →
      ∃ tag, xs.foldlM (set_boundary_step d bmap) acc = .error (tag_error_msg d tag) := by
  intro xs
  induction xs with
  | nil =>
    rintro acc _ ⟨k, tag, hk, _, _⟩
    simp at hk
  | cons k xs ih =>
    rintro acc hsome ⟨k0, tag0, hk0, hk0l, hk0n⟩
    obtain ⟨tagk, hbl⟩ := Option.isSome_iff_exists.mp (hsome k (List.mem_cons_self _ _))
    cases hbm : bmap.lookup tagk with
    | none =>
      refine ⟨tagk, ?_⟩
      rw [List.foldlM_cons]
      simp [set_boundary_step, hbl, hbm, bind, Except.bind]
    | some ob =>
      have hk0xs : k0 ∈ xs := by
        rcases List.mem_cons.mp hk0 with h0 | h0
        · subst h0
          rw [hk0l] at hbl
          obtain rfl : tag0 = tagk := by simpa using hbl
          rw [hbm] at hk0n
          cases hk0n
        · exact h0
      have hsome' : ∀ x ∈ xs, (d.boundary.lookup x).isSome :=
        fun x hx => hsome x (List.mem_cons.mpr (Or.inr hx))
      have hex : ∃ kk tt, kk ∈ xs ∧ d.boundary.lookup kk = some tt ∧ bmap.lookup tt = none :=
        ⟨k0, tag0, hk0xs, hk0l, hk0n⟩
      cases ob with
      | none =>
        obtain ⟨tag, htag⟩ := ih acc hsome' hex
        refine ⟨tag, ?_⟩
        rw [List.foldlM_cons]
        simp [set_boundary_step, hbl, hbm, bind, Except.bind, htag]
      | some B =>
        obtain ⟨tag, htag⟩ := ih
          (acc.1 ++ [(k, some B)], fun v e =>
            if v = k.1 ∧ e = k.2 then -(((acc.1 ++ [(k, some B)]).length : ℤ)) else acc.2 v e)
          hsome' hex
        refine ⟨tag, ?_⟩
        rw [List.foldlM_cons]
        simp only [set_boundary_step, hbl, hbm, bind, Except.bind]
        exact htag

/-- Claim C5: after a successful `set_boundary` the rebuilt `boundary_objects`
is in strictly ascending `(vol_id, edge_id)` order; the entry at 0-based
position `i` has `neighbours[vol_id][edge_id] = -(i+1)`; edges whose tag maps
to `None` produce no entry; and if some boundary edge's tag is absent from the
merged map, `set_boundary` raises the configuration error that lists all
boundary tags. -/
theorem set_boundary_spec (d : Domain) (m : List (String × Option Boundary))
    (hnd : (d.boundary.map Prod.fst).Nodup) :
    (∀ d' objs, set_boundary d m = .ok d' → d'.boundary_objects = some objs →
      (objs.map Prod.fst).Pairwise keyLt ∧
      (∀ i entry, objs.get? i = some entry →
        d'.neighbours entry.1.1 entry.1.2 = -((i : ℤ) + 1)) ∧
      (∀ key tag, (key, tag) ∈ d.boundary →
        (merged_boundary_map d m).lookup tag = some none →
        key ∉ objs.map Prod.fst)) ∧
    ((∃ key tag, (key, tag) ∈ d.boundary ∧
        (merged_boundary_map d m).lookup tag = none) →
      ∃ tag, set_boundary d m = .error (tag_error_msg d tag)) := by
  have hperm := List.perm_insertionSort keyLe (d.boundary.map Prod.fst)
  constructor
  · intro d' objs hok hobjs
    simp only [set_boundary, bind, Except.bind] at hok
    cases hfold : (List.insertionSort keyLe (d.boundary.map Prod.fst)).foldlM
        (set_boundary_step d (merged_boundary_map d m)) ([], d.neighbours) with
    | error msg => rw [hfold] at hok; cases hok
    | ok r =>
      rw [hfold] at hok
      simp only [pure, Except.pure] at hok
      obtain rfl : { d with boundary_map := some (merged_boundary_map d m),
                            boundary_objects := some r.1,
                            neighbours := r.2 } = d' := by simpa using hok
      have hx_pw : (List.insertionSort keyLe (d.boundary.map Prod.fst)).Pairwise keyLt :=
        pairwise_keyLt_of_sorted_nodup _
          (List.sorted_insertionSort keyLe (d.boundary.map Prod.fst))
          (hperm.nodup_iff.mpr hnd)
      have hmain := set_boundary_fold_spec d (merged_boundary_map d m) hnd
        (List.insertionSort keyLe (d.boundary.map Prod.fst)) ([], d.neighbours) r
        hx_pw (by simp) (by simp) (by simp) (by simp) hfold
      obtain rfl : r.1 = objs := by simpa using hobjs
      exact hmain
  · rintro ⟨key, tag, hmem, hnone⟩
    have hkey_x : key ∈ List.insertionSort keyLe (d.boundary.map Prod.fst) :=
      hperm.mem_iff.mpr (List.mem_map.mpr ⟨(key, tag), hmem, rfl⟩)
    have hsome : ∀ k ∈ List.insertionSort keyLe (d.boundary.map Prod.fst),
        (d.boundary.lookup k).isSome := by
      intro k hk
      exact lookup_isSome_of_mem_keys d.boundary k (hperm.mem_iff.mp hk)
    obtain ⟨tag', htag⟩ := set_boundary_fold_error d (merged_boundary_map d m)
      (List.insertionSort keyLe (d.boundary.map Prod.fst)) ([], d.neighbours)
      hsome ⟨key, tag, hkey_x, lookup_eq_of_mem_nodup d.boundary hnd hmem, hnone⟩
    refine ⟨tag', ?_⟩
    simp [set_boundary, bind, Except.bind, htag]

/-- A sample boundary object. -/
def bWall : Boundary := ⟨fun _ _ => [1]⟩

/-- A concrete domain with three boundary edges and two tags. -/
def dC5 : Domain := { baseDomain with
  boundary := [((1, 0), "wall"), ((0, 2), "inlet"), ((0, 1), "wall")] }

/-- A concrete tag map binding `wall` and skipping `inlet`. -/
def mC5 : List (String × Option Boundary) := [("wall", some bWall), ("inlet", none)]

/-- Witness for claim C5 at a concrete three-edge boundary. -/
theorem set_boundary_spec_witness :
    (∀ d' objs, set_boundary dC5 mC5 = .ok d' → d'.boundary_objects = some objs →
      (objs.map Prod.fst).Pairwise keyLt ∧
      (∀ i entry, objs.get? i = some entry →
        d'.neighbours entry.1.1 entry.1.2 = -((i : ℤ) + 1)) ∧
      (∀ key tag, (key, tag) ∈ dC5.boundary →
        (merged_boundary_map dC5 mC5).lookup tag = some none →
        key ∉ objs.map Prod.fst)) ∧
    ((∃ key tag, (key, tag) ∈ dC5.boundary ∧
        (merged_boundary_map dC5 mC5).lookup tag = none) →
      ∃ tag, set_boundary dC5 mC5 = .error (tag_error_msg dC5 tag)) :=
  set_boundary_spec dC5 mC5 (by decide)

/-- `conserved_values_to_evolved_values(q_cons, q_evol)`: the base-class hook;
`q_evol[:] = q_cons` when the lengths agree (so the result is the conserved
vector), otherwise it must be overridden by the subclass. -/
def conserved_values_to_evolved_values (q_cons q_evol : List ℚ) :
    Except String (List ℚ) :=
  if q_cons.length = q_evol.length then .ok q_cons
  else .error "Method conserved_values_to_evolved_values must be overridden by Domain subclass"

/-- Dict write `self.quantities[name] = Q`. -/
def set_quantity_obj (d : Domain) (name : String) (Q : Quantity) : Domain :=
  { d with quantities := alist_set d.quantities name Q }

/-- One iteration `(j, name)` of the write loop of `update_boundary`:
`quantities[name].boundary_values[i] = q_evol[j]`. -/
def write_boundary_step (i : ℕ) (q_evol : List ℚ) (dd : Domain) (p : ℕ × String) :
    Except String Domain := do
  let Q ← get_quantity dd p.2
  pure (set_quantity_obj dd p.2
    { Q with boundary_values := Q.boundary_values.set i (q_evol.getD p.1 0) })

/-- The trailing loop of `update_boundary`: write `q_evol[j]` into
`quantities[evolved[j]].boundary_values[i]` for every evolved quantity. -/
def write_boundary_values (d : Domain) (i : ℕ) (q_evol : List ℚ) :
    Except String Domain :=
  d.evolved_quantities.enum.foldlM (write_boundary_step i q_evol) d

/-- The body of the `update_boundary` loop for the entry at position `i`: a
`None` object is skipped (with a warning); otherwise the object is evaluated
and its vector dispatched on length — evolved length is used directly,
conserved length goes through `conserved_values_to_evolved_values` on the
current evolved edge vector, anything else raises. -/
def update_boundary_entry (dd : Domain) (i : ℕ)
    (entry : (ℕ × ℕ) × Option Boundary) : Except String Domain :=
  match entry.2 with
  | none => .ok dd
  | some B => do
    let q_bdry := B.evaluate entry.1.1 entry.1.2
    if q_bdry.length = dd.evolved_quantities.length then
      write_boundary_values dd i q_bdry
    else if q_bdry.length = dd.conserved_quantities.length then do
      let q_evol ← get_evolved_quantities dd entry.1.1 none (some entry.1.2)
      let q_evol2 ← conserved_values_to_evolved_values q_bdry q_evol
      write_boundary_values dd i q_evol2
    else
      .error "Boundary must return array of either conserved or evolved quantities"

/-- `update_boundary()`: go through `boundary_objects` in order and refresh the
boundary values of all evolved quantities. -/
def update_boundary (d : Domain) : Except String Domain :=
  match d.boundary_objects with
  | none => .error "AttributeError: boundary_objects"
  | some objs =>
    objs.enum.foldlM (fun dd2 p => update_boundary_entry dd2 p.1 p.2) d

lemma alist_set_lookup_self {α : Type} (l : List (String × α)) (k : String) (v : α) :
    (alist_set l k v).lookup k = some v := by
  induction l with
  | nil => simp [alist_set, List.lookup]
  | cons a l ih =>
    by_cases h : a.1 = k
    · simp [alist_set, h, List.lookup]
    · have hne : (k == a.1) = false := beq_eq_false_iff_ne.mpr (fun hh => h hh.symm)
      simp only [alist_set, if_neg h, List.lookup, hne]
      exact ih

lemma alist_set_lookup_ne {α : Type} (l : List (String × α)) (k k' : String) (v : α)
    (h : k' ≠ k) : (alist_set l k v).lookup k' = l.lookup k' := by
  induction l with
  | nil =>
    have : (k' == k) = false := beq_eq_false_iff_ne.mpr h
    simp [alist_set, List.lookup, this]
  | cons a l ih =>
    by_cases ha : a.1 = k
    · have h1 : (k' == k) = false := beq_eq_false_iff_ne.mpr h
      have h2 : (k' == a.1) = false := beq_eq_false_iff_ne.mpr (ha ▸ h)
      simp [alist_set, ha, List.lookup, h1, h2]
    · simp only [alist_set, if_neg ha, List.lookup]
      cases hk : k' == a.1
      · exact ih
      · rfl

lemma mem_of_lookup_eq_some {α β : Type} [BEq α] [LawfulBEq α]
    {l : List (α × β)} {k : α} {v : β} (h : l.lookup k = some v) : (k, v) ∈ l := by
  induction l with
  | nil => simp [List.lookup] at h
  | cons a l ih =>
    rw [List.lookup] at h
    cases hba : k == a.1
    · rw [hba] at h
      exact List.mem_cons.mpr (Or.inr (ih h))
    · rw [hba] at h
      have hk : k = a.1 := beq_iff_eq.mp hba
      refine List.mem_cons.mpr (Or.inl ?_)
      rw [hk]
      exact Prod.ext rfl (by simpa using h.symm)

lemma enum_pairwise_fst_lt {α : Type} (l : List α) :
    l.enum.Pairwise (fun a b => a.1 < b.1) := by
  refine List.pairwise_iff_get.mpr ?_
  intro i j hij
  rw [List.get_enum, List.get_enum]
  simpa using hij

lemma getD_set_ne (l : List ℚ) (i j : ℕ) (a : ℚ) (h : i ≠ j) :
    (l.set i a).getD j 0 = l.getD j 0 := by
  simp [List.getD_eq_getElem?_getD, List.getElem?_set_ne h]

lemma getD_set_self (l : List ℚ) (i : ℕ) (a : ℚ) (h : i < l.length) :
    (l.set i a).getD i 0 = a := by
  simp [List.getD_eq_getElem?_getD, List.getElem?_set_self, h]

lemma mapM_ok_length {α β : Type} (f : α → Except String β) :
    ∀ (l : List α) (ys : List β), l.mapM f = .ok ys → ys.length = l.length := by
  intro l
  induction l with
  | nil =>
    intro ys h
    rw [List.mapM_nil] at h
    obtain rfl : ([] : List β) = ys := by simpa [pure, Except.pure] using h
    rfl
  | cons a l ih =>
    intro ys h
    rw [List.mapM_cons] at h
    cases hfa : f a with
    | error e => rw [hfa] at h; simp [bind, Except.bind] at h
    | ok b =>
      rw [hfa] at h
      cases hfl : l.mapM f with
      | error e =>
        rw [hfl] at h
        simp [bind, Except.bind] at h
      | ok bs =>
        rw [hfl] at h
        simp only [bind, Except.bind, pure, Except.pure] at h
        obtain rfl : b :: bs = ys := by simpa using h
        simp [ih bs hfl]

/-- Composition of two state updates that only touch the quantity dictionary. -/
lemma quantities_only_trans {a b c : Domain}
    (h1 : a = { b with quantities := a.quantities })
    (h2 : b = { c with quantities := b.quantities }) :
    a = { c with quantities := a.quantities } := by
  conv_lhs => rw [h1]
  rw [h2]

lemma quantities_only_evolved {a b : Domain}
    (h : a = { b with quantities := a.quantities }) :
    a.evolved_quantities = b.evolved_quantities := by rw [h]

lemma quantities_only_conserved {a b : Domain}
    (h : a = { b with quantities := a.quantities }) :
    a.conserved_quantities = b.conserved_quantities := by rw [h]

/-- The write loop of `update_boundary` characterised: each written name maps
to its old quantity with `boundary_values[i]` set to its vector entry; other
names are untouched; nothing outside `quantities` changes. -/
lemma write_fold_spec (i : ℕ) (q : List ℚ) :
    ∀ (pairs : List (ℕ × String)) (dd d' : Domain),
      (pairs.map Prod.snd).Nodup →
      (∀ p ∈ pairs, (dd.quantities.lookup p.2).isSome) →
      pairs.foldlM (write_boundary_step i q) dd = .ok d' →
      d' = { dd with quantities := d'.quantities } ∧
      (∀ n, n ∉ pairs.map Prod.snd → d'.quantities.lookup n = dd.quantities.lookup n) ∧
      (∀ p ∈ pairs, ∃ Q, dd.quantities.lookup p.2 = some Q ∧
        d'.quantities.lookup p.2 =
          some { Q with boundary_values := Q.boundary_values.set i (q.getD p.1 0) }) := by
  intro pairs
  induction pairs with
  | nil =>
    intro dd d' _ _ hfold
    simp only [List.foldlM_nil] at hfold
    obtain rfl : dd = d' := by simpa [pure, Except.pure] using hfold
    exact ⟨rfl, fun n _ => rfl, by simp⟩
  | cons p pairs ih =>
    intro dd d' hnd hpres hfold
    obtain ⟨Q, hQ⟩ := Option.isSome_iff_exists.mp (hpres p (List.mem_cons_self _ _))
    rw [List.foldlM_cons] at hfold
    have hstep : write_boundary_step i q dd p =
        .ok (set_quantity_obj dd p.2
          { Q with boundary_values := Q.boundary_values.set i (q.getD p.1 0) }) := by
      simp [write_boundary_step, get_quantity, hQ, bind, Except.bind, pure, Except.pure]
    rw [hstep] at hfold
    simp only [bind, Except.bind] at hfold
    have hnd0 : p.2 ∉ pairs.map Prod.snd ∧ (pairs.map Prod.snd).Nodup := by
      rw [List.map_cons] at hnd
      exact List.nodup_cons.mp hnd
    set dd1 := set_quantity_obj dd p.2
      { Q with boundary_values := Q.boundary_values.set i (q.getD p.1 0) } with hdd1
    have hpres' : ∀ r ∈ pairs, (dd1.quantities.lookup r.2).isSome := by
      intro r hr
      by_cases hrp : r.2 = p.2
      · rw [hdd1]
        simp only [set_quantity_obj]
        rw [hrp, alist_set_lookup_self]
        simp
      · rw [hdd1]
        simp only [set_quantity_obj]
        rw [alist_set_lookup_ne _ _ _ _ hrp]
        exact hpres r (List.mem_cons.mpr (Or.inr hr))
    obtain ⟨hshell, hother, hwritten⟩ := ih dd1 d' hnd0.2 hpres' hfold
    refine ⟨?_, ?_, ?_⟩
    · exact quantities_only_trans hshell (by rw [hdd1]; rfl)
    · intro n hn
      simp only [List.map_cons, List.mem_cons, not_or] at hn
      rw [hother n hn.2, hdd1]
      simp only [set_quantity_obj]
      exact alist_set_lookup_ne _ _ _ _ hn.1
    · intro r hr
      rcases List.mem_cons.mp hr with hr0 | hr0
      · subst hr0
        refine ⟨Q, hQ, ?_⟩
        rw [hother r.2 hnd0.1, hdd1]
        simp only [set_quantity_obj]
        exact alist_set_lookup_self _ _ _
      · obtain ⟨Q1, hQ1, hQ1'⟩ := hwritten r hr0
        have hrp : r.2 ≠ p.2 := by
          intro hEq
          exact hnd0.1 (hEq ▸ List.mem_map.mpr ⟨r, hr0, rfl⟩)
        rw [hdd1] at hQ1
        simp only [set_quantity_obj] at hQ1
        rw [alist_set_lookup_ne _ _ _ _ hrp] at hQ1
        exact ⟨Q1, hQ1, hQ1'⟩

/-- What a successful `update_boundary_entry` does, relative to the reference
name lists of `d0`: a skipped `None`, or a write of the evaluated vector into
slot `i` of every evolved quantity, the vector's length being the evolved (or,
equal, conserved) one. -/
lemma update_boundary_entry_spec (d0 dd : Domain) (i : ℕ)
    (entry : (ℕ × ℕ) × Option Boundary) (d' : Domain)
    (hev : dd.evolved_quantities = d0.evolved_quantities)
    (hcq : dd.conserved_quantities = d0.conserved_quantities)
    (hnd : d0.evolved_quantities.Nodup)
    (hpres : ∀ n ∈ d0.evolved_quantities, (dd.quantities.lookup n).isSome)
    (hok : update_boundary_entry dd i entry = .ok d') :
    d' = { dd with quantities := d'.quantities } ∧
    (∀ n, n ∉ d0.evolved_quantities → d'.quantities.lookup n = dd.quantities.lookup n) ∧
    (∀ B, entry.2 = some B →
      ((B.evaluate entry.1.1 entry.1.2).length = d0.evolved_quantities.length ∨
       (B.evaluate entry.1.1 entry.1.2).length = d0.conserved_quantities.length) ∧
      (∀ j n, d0.evolved_quantities.get? j = some n →
        ∃ Q, dd.quantities.lookup n = some Q ∧
          d'.quantities.lookup n =
            some { Q with boundary_values :=
              Q.boundary_values.set i ((B.evaluate entry.1.1 entry.1.2).getD j 0) })) ∧
    (entry.2 = none → d' = dd) := by
  cases hB : entry.2 with
  | none =>
    simp only [update_boundary_entry, hB] at hok
    obtain rfl : dd = d' := by simpa using hok
    refine ⟨rfl, fun n _ => rfl, ?_, fun _ => rfl⟩
    intro B hBB
    simp at hBB
  | some B =>
    simp only [update_boundary_entry, hB] at hok
    by_cases h1 : (B.evaluate entry.1.1 entry.1.2).length = dd.evolved_quantities.length
    · rw [if_pos h1] at hok
      have hmap_snd : (dd.evolved_quantities.enum.map Prod.snd).Nodup := by
        rw [List.enum_map_snd]
        rw [hev]
        exact hnd
      have hpres' : ∀ p ∈ dd.evolved_quantities.enum, (dd.quantities.lookup p.2).isSome := by
        intro p hp
        apply hpres
        rw [← hev]
        rw [← List.enum_map_snd dd.evolved_quantities]
        exact List.mem_map.mpr ⟨p, hp, rfl⟩
      obtain ⟨hshell, hother, hwritten⟩ :=
        write_fold_spec i (B.evaluate entry.1.1 entry.1.2)
          dd.evolved_quantities.enum dd d' hmap_snd hpres' hok
      refine ⟨hshell, ?_, ?_, ?_⟩
      · intro n hn
        apply hother
        rw [List.enum_map_snd, hev]
        exact hn
      · intro B' hB'
        obtain rfl : B = B' := by simpa using hB'
        refine ⟨Or.inl (hev ▸ h1), ?_⟩
        intro j n hget
        have hmem : (j, n) ∈ dd.evolved_quantities.enum := by
          rw [List.mk_mem_enum_iff_get?, hev]
          exact hget
        exact hwritten (j, n) hmem
      · intro hcontra
        simp at hcontra
    · rw [if_neg h1] at hok
      by_cases h2 : (B.evaluate entry.1.1 entry.1.2).length = dd.conserved_quantities.length
      · rw [if_pos h2] at hok
        exfalso
        cases hge : get_evolved_quantities dd entry.1.1 none (some entry.1.2) with
        | error e =>
          rw [hge] at hok
          simp [bind, Except.bind] at hok
        | ok q_evol0 =>
          rw [hge] at hok
          simp only [bind, Except.bind] at hok
          have hlen0 : q_evol0.length = dd.evolved_quantities.length := by
            simp only [get_evolved_quantities, get_quantity_vector, Option.isSome_none,
              Bool.false_and, Bool.false_eq_true, if_false, Option.isSome_some,
              Bool.and_false] at hge
            exact mapM_ok_length _ _ _ hge
          have : conserved_values_to_evolved_values
              (B.evaluate entry.1.1 entry.1.2) q_evol0 = .error
                "Method conserved_values_to_evolved_values must be overridden by Domain subclass" := by
            rw [conserved_values_to_evolved_values, if_neg]
            rw [hlen0]
            exact h1
          rw [this] at hok
          simp [bind, Except.bind] at hok
      · rw [if_neg h2] at hok
        cases hok

/-- The `update_boundary` fold characterised over a strictly index-increasing
entry list: slots outside the processed indices are untouched, and every
present boundary object of the list has written its vector into its slot. -/
lemma update_boundary_fold_spec (d0 : Domain) :
    ∀ (xs : List (ℕ × ((ℕ × ℕ) × Option Boundary))) (dd d' : Domain),
      xs.Pairwise (fun a b => a.1 < b.1) →
      dd.evolved_quantities = d0.evolved_quantities →
      dd.conserved_quantities = d0.conserved_quantities →
      d0.evolved_quantities.Nodup →
      (∀ n ∈ d0.evolved_quantities, (dd.quantities.lookup n).isSome) →
      (∀ n Q, dd.quantities.lookup n = some Q → ∀ p ∈ xs, p.1 < Q.boundary_values.length) →
      xs.foldlM (fun dd2 p => update_boundary_entry dd2 p.1 p.2) dd = .ok d' →
      d' = { dd with quantities := d'.quantities } ∧
      (∀ n ∈ d0.evolved_quantities, (d'.quantities.lookup n).isSome) ∧
      (∀ n Q, d'.quantities.lookup n = some Q → ∃ Q0, dd.quantities.lookup n = some Q0 ∧
        Q.boundary_values.length = Q0.boundary_values.length ∧
        (∀ i', (∀ p ∈ xs, p.1 ≠ i') →
          Q.boundary_values.getD i' 0 = Q0.boundary_values.getD i' 0)) ∧
      (∀ p ∈ xs, ∀ B, p.2.2 = some B →
        ((B.evaluate p.2.1.1 p.2.1.2).length = d0.evolved_quantities.length ∨
         (B.evaluate p.2.1.1 p.2.1.2).length = d0.conserved_quantities.length) ∧
        (∀ j n, d0.evolved_quantities.get? j = some n →
          ∃ Q, d'.quantities.lookup n = some Q ∧
            Q.boundary_values.getD p.1 0 = (B.evaluate p.2.1.1 p.2.1.2).getD j 0)) := by
  intro xs
  induction xs with
  | nil =>
    intro dd d' _ _ _ _ hpres _ hfold
    simp only [List.foldlM_nil] at hfold
    obtain rfl : dd = d' := by simpa [pure, Except.pure] using hfold
    refine ⟨rfl, hpres, ?_, by simp⟩
    intro n Q hQ
    exact ⟨Q, hQ, rfl, fun i' _ => rfl⟩
  | cons p xs ih =>
    intro dd d' hpw hev hcq hnd hpres hbound hfold
    obtain ⟨hp_lt, hpw_xs⟩ := List.pairwise_cons.mp hpw
    rw [List.foldlM_cons] at hfold
    cases hstep : update_boundary_entry dd p.1 p.2 with
    | error e => rw [hstep] at hfold; simp [bind, Except.bind] at hfold
    | ok dd1 =>
      rw [hstep] at hfold
      simp only [bind, Except.bind] at hfold
      obtain ⟨eshell, eother, ewrite, enone⟩ :=
        update_boundary_entry_spec d0 dd p.1 p.2 dd1 hev hcq hnd hpres hstep
      -- lookup relation between `dd` and `dd1`, by cases on the entry
      have hrel : ∀ n, (n ∉ d0.evolved_quantities ∧
            dd1.quantities.lookup n = dd.quantities.lookup n) ∨
          (∃ B v, p.2.2 = some B ∧ ∃ Q, dd.quantities.lookup n = some Q ∧
            dd1.quantities.lookup n =
              some { Q with boundary_values := Q.boundary_values.set p.1 v }) ∨
          (p.2.2 = none ∧ dd1 = dd) := by
        intro n
        cases hB : p.2.2 with
        | none => exact Or.inr (Or.inr ⟨rfl, enone hB⟩)
        | some B =>
          by_cases hmem : n ∈ d0.evolved_quantities
          · obtain ⟨j, hj⟩ := List.get?_of_mem hmem
            obtain ⟨Q, hQ, hQ'⟩ := (ewrite B hB).2 j n hj
            exact Or.inr (Or.inl ⟨B, _, rfl, Q, hQ, hQ'⟩)
          · exact Or.inl ⟨hmem, eother n hmem⟩
      have hev1 : dd1.evolved_quantities = d0.evolved_quantities := by
        rw [quantities_only_evolved eshell]; exact hev
      have hcq1 : dd1.conserved_quantities = d0.conserved_quantities := by
        rw [quantities_only_conserved eshell]; exact hcq
      have hpres1 : ∀ n ∈ d0.evolved_quantities, (dd1.quantities.lookup n).isSome := by
        intro n hn
        rcases hrel n with ⟨hn', _⟩ | ⟨B, v, hB, Q, hQ, hQ'⟩ | ⟨_, hdd⟩
        · exact absurd hn hn'
        · rw [hQ']; simp
        · rw [hdd]; exact hpres n hn
      have hbound1 : ∀ n Q, dd1.quantities.lookup n = some Q →
          ∀ r ∈ xs, r.1 < Q.boundary_values.length := by
        intro n Q hQ r hr
        rcases hrel n with ⟨_, heq⟩ | ⟨B, v, hB, Q0, hQ0, hQ0'⟩ | ⟨_, hdd⟩
        · rw [heq] at hQ
          exact hbound n Q hQ r (List.mem_cons.mpr (Or.inr hr))
        · rw [hQ0'] at hQ
          obtain rfl : { Q0 with boundary_values := Q0.boundary_values.set p.1 v } = Q := by
            simpa using hQ
          simp only [List.length_set]
          exact hbound n Q0 hQ0 r (List.mem_cons.mpr (Or.inr hr))
        · rw [hdd] at hQ
          exact hbound n Q hQ r (List.mem_cons.mpr (Or.inr hr))
      obtain ⟨shell1, pres1, back1, done1⟩ :=
        ih dd1 d' hpw_xs hev1 hcq1 hnd hpres1 hbound1 hfold
      refine ⟨quantities_only_trans shell1 eshell, pres1, ?_, ?_⟩
      · -- relate `d'` all the way back to `dd`
        intro n Q hQ
        obtain ⟨Q1, hQ1, hlen1, hoff1⟩ := back1 n Q hQ
        rcases hrel n with ⟨_, heq⟩ | ⟨B, v, hB, Q0, hQ0, hQ0'⟩ | ⟨_, hdd⟩
        · rw [heq] at hQ1
          refine ⟨Q1, hQ1, hlen1, ?_⟩
          intro i' hi'
          exact hoff1 i' (fun r hr => hi' r (List.mem_cons.mpr (Or.inr hr)))
        · rw [hQ0'] at hQ1
          obtain rfl : { Q0 with boundary_values := Q0.boundary_values.set p.1 v } = Q1 := by
            simpa using hQ1
          refine ⟨Q0, hQ0, by simpa using hlen1, ?_⟩
          intro i' hi'
          have h1 := hoff1 i' (fun r hr => hi' r (List.mem_cons.mpr (Or.inr hr)))
          rw [h1]
          simp only
          exact getD_set_ne _ _ _ _ (hi' p (List.mem_cons_self _ _))
        · rw [hdd] at hQ1
          refine ⟨Q1, hQ1, hlen1, ?_⟩
          intro i' hi'
          exact hoff1 i' (fun r hr => hi' r (List.mem_cons.mpr (Or.inr hr)))
      · -- every entry of `p :: xs` has written its vector
        intro r hr B hB
        rcases List.mem_cons.mp hr with hr0 | hr0
        · subst hr0
          refine ⟨(ewrite B hB).1, ?_⟩
          intro j n hj
          obtain ⟨Q0, hQ0, hQ0'⟩ := (ewrite B hB).2 j n hj
          obtain ⟨Qf, hQf⟩ := Option.isSome_iff_exists.mp
            (pres1 n (List.get?_mem hj))
          obtain ⟨Q1, hQ1, _, hoff1⟩ := back1 n Qf hQf
          rw [hQ0'] at hQ1
          obtain rfl : { Q0 with boundary_values :=
              Q0.boundary_values.set r.1 ((B.evaluate r.2.1.1 r.2.1.2).getD j 0) } = Q1 := by
            simpa using hQ1
          refine ⟨Qf, hQf, ?_⟩
          have hnot : ∀ s ∈ xs, s.1 ≠ r.1 := by
            intro s hs
            exact Nat.ne_of_gt (hp_lt s hs)
          rw [hoff1 r.1 hnot]
          simp only
          apply getD_set_self
          exact hbound n Q0 hQ0 r (List.mem_cons_self _ _)
        · exact done1 r hr0 B hB

/-- Claim C6: for each entry of `boundary_objects`, `update_boundary` evaluates
the boundary object and dispatches on the vector's length: evolved length is
written directly into the boundary slots at the entry's position; conserved
length goes through `conserved_values_to_evolved_values` (which by default
copies the conserved values when the two lengths are equal and raises
otherwise); any other length raises a contract error. -/
theorem update_boundary_dispatch_spec (d : Domain)
    (objs : List ((ℕ × ℕ) × Option Boundary))
    (hobjs : d.boundary_objects = some objs)
    (hnd : d.evolved_quantities.Nodup)
    (hpres : ∀ n ∈ d.evolved_quantities, (d.quantities.lookup n).isSome)
    (hlen : ∀ kv ∈ d.quantities, objs.length ≤ kv.2.boundary_values.length) :
    (∀ q_cons q_evol : List ℚ, q_cons.length = q_evol.length →
      conserved_values_to_evolved_values q_cons q_evol = .ok q_cons) ∧
    (∀ q_cons q_evol : List ℚ, q_cons.length ≠ q_evol.length →
      ∃ m, conserved_values_to_evolved_values q_cons q_evol = .error m) ∧
    (∀ d', update_boundary d = .ok d' →
      ∀ ix e, objs.get? ix = some e → ∀ B, e.2 = some B →
        ((B.evaluate e.1.1 e.1.2).length = d.evolved_quantities.length ∨
         (B.evaluate e.1.1 e.1.2).length = d.conserved_quantities.length) ∧
        (∀ j n, d.evolved_quantities.get? j = some n →
          ∃ Q, d'.quantities.lookup n = some Q ∧
            Q.boundary_values.getD ix 0 = (B.evaluate e.1.1 e.1.2).getD j 0)) ∧
    ((∃ e ∈ objs, ∃ B, e.2 = some B ∧
        (B.evaluate e.1.1 e.1.2).length ≠ d.evolved_quantities.length ∧
        (B.evaluate e.1.1 e.1.2).length ≠ d.conserved_quantities.length) →
      ∃ m, update_boundary d = .error m) := by
  have hbound : ∀ n Q, d.quantities.lookup n = some Q →
      ∀ p ∈ objs.enum, p.1 < Q.boundary_values.length := by
    intro n Q hQ p hp
    have h1 : objs.length ≤ Q.boundary_values.length :=
      hlen (n, Q) (mem_of_lookup_eq_some hQ)
    have h2 : objs.get? p.1 = some p.2 := List.mem_enum_iff_get?.mp hp
    obtain ⟨hlt, _⟩ := List.get?_eq_some.mp h2
    omega
  have hmain : ∀ d', update_boundary d = .ok d' →
      ∀ ix e, objs.get? ix = some e → ∀ B, e.2 = some B →
        ((B.evaluate e.1.1 e.1.2).length = d.evolved_quantities.length ∨
         (B.evaluate e.1.1 e.1.2).length = d.conserved_quantities.length) ∧
        (∀ j n, d.evolved_quantities.get? j = some n →
          ∃ Q, d'.quantities.lookup n = some Q ∧
            Q.boundary_values.getD ix 0 = (B.evaluate e.1.1 e.1.2).getD j 0) := by
    intro d' hok ix e hget B hB
    simp only [update_boundary, hobjs] at hok
    obtain ⟨_, _, _, done⟩ := update_boundary_fold_spec d objs.enum d d'
      (enum_pairwise_fst_lt objs) rfl rfl hnd hpres hbound hok
    exact done (ix, e) (List.mk_mem_enum_iff_get?.mpr hget) B hB
  refine ⟨?_, ?_, hmain, ?_⟩
  · intro qc qe h
    rw [conserved_values_to_evolved_values, if_pos h]
  · intro qc qe h
    exact ⟨_, by rw [conserved_values_to_evolved_values, if_neg h]⟩
  · rintro ⟨e, he, B, hB, hne, hnc⟩
    cases hres : update_boundary d with
    | error m => exact ⟨m, rfl⟩
    | ok d' =>
      exfalso
      obtain ⟨ix, hix⟩ := List.get?_of_mem he
      rcases (hmain d' hres ix e hix B hB).1 with h | h
      · exact hne h
      · exact hnc h

/-- A concrete domain with one quantity and one bound boundary edge. -/
def dC6 : Domain := { baseDomain with
  conserved_quantities := ["stage"]
  evolved_quantities := ["stage"]
  quantities := [("stage", qStage)]
  boundary_objects := some [((0, 0), some bWall)] }

/-- Witness for claim C6 at a concrete one-entry boundary list. -/
theorem update_boundary_dispatch_spec_witness :
    (∀ q_cons q_evol : List ℚ, q_cons.length = q_evol.length →
      conserved_values_to_evolved_values q_cons q_evol = .ok q_cons) ∧
    (∀ q_cons q_evol : List ℚ, q_cons.length ≠ q_evol.length →
      ∃ m, conserved_values_to_evolved_values q_cons q_evol = .error m) ∧
    (∀ d', update_boundary dC6 = .ok d' →
      ∀ ix e, [((0, 0), some bWall)].get? ix = some e → ∀ B, e.2 = some B →
        ((B.evaluate e.1.1 e.1.2).length = dC6.evolved_quantities.length ∨
         (B.evaluate e.1.1 e.1.2).length = dC6.conserved_quantities.length) ∧
        (∀ j n, dC6.evolved_quantities.get? j = some n →
          ∃ Q, d'.quantities.lookup n = some Q ∧
            Q.boundary_values.getD ix 0 = (B.evaluate e.1.1 e.1.2).getD j 0)) ∧
    ((∃ e ∈ [((0, 0), some bWall)], ∃ B, e.2 = some B ∧
        (B.evaluate e.1.1 e.1.2).length ≠ dC6.evolved_quantities.length ∧
        (B.evaluate e.1.1 e.1.2).length ≠ dC6.conserved_quantities.length) →
      ∃ m, update_boundary dC6 = .error m) :=
  update_boundary_dispatch_spec dC6 [((0, 0), some bWall)] rfl
    (by decide) (by decide) (by decide)

/-- Minimum of a rational list (`min(data)` of numpy; `0` on the empty list,
which the callers never pass). -/
def list_min : List ℚ → ℚ
  | [] => 0
  | x :: xs => xs.foldl min x

/-- Maximum of a rational list (`max(data)` of numpy; `0` on the empty list). -/
def list_max : List ℚ → ℚ
  | [] => 0
  | x :: xs => xs.foldl max x

/-- Modelled from the spec: `create_bins(data, 10)` from
`anuga.utilities.numerical_tools` is not among the sources; per the spec the
protection builds a 10-bin histogram of `max_speed` over equal-width bins, so
this returns the 10 left bin edges over `[min data, max data]`; the last entry
(`bins[-1]`) is the upper edge of bin 8. -/
def create_bins (data : List ℚ) : List ℚ :=
  (List.range 10).map (fun i => list_min data + i * (list_max data - list_min data) / 10)

/-- Modelled from the spec: `histogram(data, bins)` counts the data points in
`[bins[i], bins[i+1])` for each bin, the last bin taking everything at or above
its left edge. -/
def histogram (data bins : List ℚ) : List ℕ :=
  (List.range bins.length).map (fun i =>
    if i + 1 < bins.length then
      (data.filter (fun x =>
        decide (bins.getD i 0 ≤ x) && decide (x < bins.getD (i + 1) 0))).length
    else
      (data.filter (fun x => decide (bins.getD i 0 ≤ x))).length)

/-- Modelled from the spec: the external `Quantity.set_values(0.0, indices=[i])`
call used by the protection sets the quantity's value at cell `i` to zero
("set the two momentum components to zero at that cell"). -/
def zero_at (Q : Quantity) (i : ℕ) : Quantity :=
  { Q with centroid_values := Q.centroid_values.set i 0 }

/-- The loop body of the protection for triangle `i`: when its `max_speed`
exceeds the last bin edge, zero `xmomentum` and `ymomentum` at `i` (a
`KeyError` if those quantities do not exist) and zero `max_speed[i]`. -/
def protection_zero_triangle (dd : Domain) (last_bin_edge : ℚ) (i : ℕ) :
    Except String Domain :=
  if last_bin_edge < dd.max_speed.getD i 0 then do
    let xmom ← get_quantity dd "xmomentum"
    let d1 := set_quantity_obj dd "xmomentum" (zero_at xmom i)
    let ymom ← get_quantity d1 "ymomentum"
    let d2 := set_quantity_obj d1 "ymomentum" (zero_at ymom i)
    pure { d2 with max_speed := d2.max_speed.set i 0 }
  else
    pure dd

/-- `apply_protection_against_isolated_degenerate_timesteps()`: no-op unless
the feature flag is on and `max(max_speed) ≥ 10`; on the histogram signature
(bins 4..8 empty, last bin nonempty, more than one bin) zero the momentum of
every full triangle whose speed exceeds the last bin edge. -/
def apply_protection_against_isolated_degenerate_timesteps (d : Domain) :
    Except String Domain :=
  if d.protect_against_isolated_degenerate_timesteps = false then .ok d
  else if list_max d.max_speed < 10 then .ok d
  else
    let bins := create_bins d.max_speed
    let hist := histogram d.max_speed bins
    if 1 < hist.length ∧ 0 < hist.getLastD 0 ∧
        hist.getD 4 0 = 0 ∧ hist.getD 5 0 = 0 ∧ hist.getD 6 0 = 0 ∧
        hist.getD 7 0 = 0 ∧ hist.getD 8 0 = 0 then
      (List.range d.number_of_full_triangles).foldlM
        (fun dd i => protection_zero_triangle dd (bins.getLastD 0) i) d
    else .ok d

lemma getD_set_zero (l : List ℚ) (i : ℕ) : (l.set i 0).getD i 0 = 0 := by
  by_cases h : i < l.length
  · exact getD_set_self l i 0 h
  · have : (l.set i 0).length ≤ i := by
      simpa using Nat.le_of_not_lt h
    simp [List.getD_eq_getElem?_getD, List.getElem?_eq_none this]

/-- Composition of two state updates that only touch the quantity dictionary
and `max_speed`. -/
lemma qms_only_trans {a b c : Domain}
    (h1 : a = { b with quantities := a.quantities, max_speed := a.max_speed })
    (h2 : b = { c with quantities := b.quantities, max_speed := b.max_speed }) :
    a = { c with quantities := a.quantities, max_speed := a.max_speed } := by
  conv_lhs => rw [h1]
  rw [h2]

/-- The protection loop characterised over a duplicate-free index list: the
`max_speed` entries and the momentum values of the triggered cells are zeroed,
everything else is untouched. -/
lemma protection_fold_spec (edge : ℚ) :
    ∀ (xs : List ℕ) (dd d' : Domain),
      xs.Nodup →
      (dd.quantities.lookup "xmomentum").isSome →
      (dd.quantities.lookup "ymomentum").isSome →
      xs.foldlM (fun dd2 i => protection_zero_triangle dd2 edge i) dd = .ok d' →
      d' = { dd with quantities := d'.quantities, max_speed := d'.max_speed } ∧
      (∀ j, d'.max_speed.getD j 0 =
        if j ∈ xs ∧ edge < dd.max_speed.getD j 0 then 0 else dd.max_speed.getD j 0) ∧
      (∃ Qx Qx', dd.quantities.lookup "xmomentum" = some Qx ∧
        d'.quantities.lookup "xmomentum" = some Qx' ∧
        ∀ j, Qx'.centroid_values.getD j 0 =
          if j ∈ xs ∧ edge < dd.max_speed.getD j 0 then 0
          else Qx.centroid_values.getD j 0) ∧
      (∃ Qy Qy', dd.quantities.lookup "ymomentum" = some Qy ∧
        d'.quantities.lookup "ymomentum" = some Qy' ∧
        ∀ j, Qy'.centroid_values.getD j 0 =
          if j ∈ xs ∧ edge < dd.max_speed.getD j 0 then 0
          else Qy.centroid_values.getD j 0) ∧
      (∀ n, n ≠ "xmomentum" → n ≠ "ymomentum" →
        d'.quantities.lookup n = dd.quantities.lookup n) := by
  intro xs
  induction xs with
  | nil =>
    intro dd d' _ hx hy hfold
    simp only [List.foldlM_nil] at hfold
    obtain rfl : dd = d' := by simpa [pure, Except.pure] using hfold
    obtain ⟨Qx, hQx⟩ := Option.isSome_iff_exists.mp hx
    obtain ⟨Qy, hQy⟩ := Option.isSome_iff_exists.mp hy
    exact ⟨rfl, by simp, ⟨Qx, Qx, hQx, hQx, by simp⟩, ⟨Qy, Qy, hQy, hQy, by simp⟩,
      fun n _ _ => rfl⟩
  | cons i xs ih =>
    intro dd d' hnodup hx hy hfold
    have hnd := List.nodup_cons.mp hnodup
    obtain ⟨Qx, hQx⟩ := Option.isSome_iff_exists.mp hx
    obtain ⟨Qy, hQy⟩ := Option.isSome_iff_exists.mp hy
    have hyx : ("ymomentum" : String) ≠ "xmomentum" := by decide
    rw [List.foldlM_cons] at hfold
    by_cases hc : edge < dd.max_speed.getD i 0
    · -- triggered: both momenta and the speed entry are zeroed at `i`
      have hy1 : List.lookup "ymomentum"
          (alist_set dd.quantities "xmomentum" (zero_at Qx i)) = some Qy := by
        rw [alist_set_lookup_ne _ _ _ _ hyx]
        exact hQy
      have hstep : protection_zero_triangle dd edge i = .ok
          { set_quantity_obj (set_quantity_obj dd "xmomentum" (zero_at Qx i))
              "ymomentum" (zero_at Qy i) with
            max_speed := dd.max_speed.set i 0 } := by
        rw [protection_zero_triangle, if_pos hc]
        simp [get_quantity, hQx, hy1, bind, Except.bind, pure, Except.pure,
          set_quantity_obj]
      rw [hstep] at hfold
      simp only [bind, Except.bind] at hfold
      set dd3 : Domain :=
        { set_quantity_obj (set_quantity_obj dd "xmomentum" (zero_at Qx i))
            "ymomentum" (zero_at Qy i) with
          max_speed := dd.max_speed.set i 0 } with hdd3
      have hx3 : (dd3.quantities.lookup "xmomentum").isSome := by
        rw [hdd3]
        simp only [set_quantity_obj]
        rw [alist_set_lookup_ne _ _ _ _ hyx.symm, alist_set_lookup_self]
        simp
      have hy3 : (dd3.quantities.lookup "ymomentum").isSome := by
        rw [hdd3]
        simp only [set_quantity_obj]
        rw [alist_set_lookup_self]
        simp
      obtain ⟨shell1, hms1, ⟨Qx3, Qx', hQx3, hQx', hfx⟩, ⟨Qy3, Qy', hQy3, hQy', hfy⟩,
        hother1⟩ := ih dd3 d' hnd.2 hx3 hy3 hfold
      have hQx3_eq : Qx3 = zero_at Qx i := by
        rw [hdd3] at hQx3
        simp only [set_quantity_obj] at hQx3
        rw [alist_set_lookup_ne _ _ _ _ hyx.symm, alist_set_lookup_self] at hQx3
        simpa using hQx3.symm
      have hQy3_eq : Qy3 = zero_at Qy i := by
        rw [hdd3] at hQy3
        simp only [set_quantity_obj] at hQy3
        rw [alist_set_lookup_self] at hQy3
        simpa using hQy3.symm
      have hms3 : ∀ j, dd3.max_speed.getD j 0 =
          if j = i then 0 else dd.max_speed.getD j 0 := by
        intro j
        rw [hdd3]
        by_cases hji : j = i
        · subst hji
          rw [if_pos rfl]
          exact getD_set_zero _ _
        · rw [if_neg hji]
          exact getD_set_ne _ _ _ _ (fun h => hji h.symm)
      refine ⟨qms_only_trans shell1 (by rw [hdd3]; rfl), ?_, ?_, ?_, ?_⟩
      · intro j
        by_cases hji : j = i
        · subst hji
          rw [hms1 j, if_neg (fun h => hnd.1 h.1), hms3 j, if_pos rfl,
            if_pos ⟨List.mem_cons_self _ _, hc⟩]
        · have hm3 : dd3.max_speed.getD j 0 = dd.max_speed.getD j 0 := by
            rw [hms3 j, if_neg hji]
          rw [hms1 j, hm3]
          by_cases hcond : j ∈ xs ∧ edge < dd.max_speed.getD j 0
          · rw [if_pos hcond, if_pos ⟨List.mem_cons.mpr (Or.inr hcond.1), hcond.2⟩]
          · have hncond : ¬ (j ∈ i :: xs ∧ edge < dd.max_speed.getD j 0) := by
              rintro ⟨hmem, hlt⟩
              rcases List.mem_cons.mp hmem with h | h
              · exact hji h
              · exact hcond ⟨h, hlt⟩
            rw [if_neg hcond, if_neg hncond]
      · refine ⟨Qx, Qx', hQx, hQx', ?_⟩
        intro j
        by_cases hji : j = i
        · subst hji
          rw [hfx j, if_neg (fun h => hnd.1 h.1), hQx3_eq]
          show (Qx.centroid_values.set j 0).getD j 0 = _
          rw [getD_set_zero, if_pos ⟨List.mem_cons_self _ _, hc⟩]
        · have hm3 : dd3.max_speed.getD j 0 = dd.max_speed.getD j 0 := by
            rw [hms3 j, if_neg hji]
          have hset : (Qx.centroid_values.set i 0).getD j 0 =
              Qx.centroid_values.getD j 0 :=
            getD_set_ne _ _ _ _ (fun h => hji h.symm)
          rw [hfx j, hm3, hQx3_eq]
          show (if j ∈ xs ∧ edge < dd.max_speed.getD j 0 then 0
            else (Qx.centroid_values.set i 0).getD j 0) = _
          by_cases hcond : j ∈ xs ∧ edge < dd.max_speed.getD j 0
          · rw [if_pos hcond, if_pos ⟨List.mem_cons.mpr (Or.inr hcond.1), hcond.2⟩]
          · have hncond : ¬ (j ∈ i :: xs ∧ edge < dd.max_speed.getD j 0) := by
              rintro ⟨hmem, hlt⟩
              rcases List.mem_cons.mp hmem with h | h
              · exact hji h
              · exact hcond ⟨h, hlt⟩
            rw [if_neg hcond, hset, if_neg hncond]
      · refine ⟨Qy, Qy', hQy, hQy', ?_⟩
        intro j
        by_cases hji : j = i
        · subst hji
          rw [hfy j, if_neg (fun h => hnd.1 h.1), hQy3_eq]
          show (Qy.centroid_values.set j 0).getD j 0 = _
          rw [getD_set_zero, if_pos ⟨List.mem_cons_self _ _, hc⟩]
        · have hm3 : dd3.max_speed.getD j 0 = dd.max_speed.getD j 0 := by
            rw [hms3 j, if_neg hji]
          have hset : (Qy.centroid_values.set i 0).getD j 0 =
              Qy.centroid_values.getD j 0 :=
            getD_set_ne _ _ _ _ (fun h => hji h.symm)
          rw [hfy j, hm3, hQy3_eq]
          show (if j ∈ xs ∧ edge < dd.max_speed.getD j 0 then 0
            else (Qy.centroid_values.set i 0).getD j 0) = _
          by_cases hcond : j ∈ xs ∧ edge < dd.max_speed.getD j 0
          · rw [if_pos hcond, if_pos ⟨List.mem_cons.mpr (Or.inr hcond.1), hcond.2⟩]
          · have hncond : ¬ (j ∈ i :: xs ∧ edge < dd.max_speed.getD j 0) := by
              rintro ⟨hmem, hlt⟩
              rcases List.mem_cons.mp hmem with h | h
              · exact hji h
              · exact hcond ⟨h, hlt⟩
            rw [if_neg hcond, hset, if_neg hncond]
      · intro n hnx hny
        rw [hother1 n hnx hny, hdd3]
        simp only [set_quantity_obj]
        rw [alist_set_lookup_ne _ _ _ _ hny, alist_set_lookup_ne _ _ _ _ hnx]
    · -- not triggered: the step is a no-op
      have hstep : protection_zero_triangle dd edge i = .ok dd := by
        rw [protection_zero_triangle, if_neg hc]
        rfl
      rw [hstep] at hfold
      simp only [bind, Except.bind] at hfold
      obtain ⟨shell1, hms1, ⟨Qx0, Qx', hQx0, hQx', hfx⟩, ⟨Qy0, Qy', hQy0, hQy', hfy⟩,
        hother1⟩ := ih dd d' hnd.2 hx hy hfold
      have hcover : ∀ j, (j ∈ i :: xs ∧ edge < dd.max_speed.getD j 0) ↔
          (j ∈ xs ∧ edge < dd.max_speed.getD j 0) := by
        intro j
        constructor
        · rintro ⟨hmem, hlt⟩
          rcases List.mem_cons.mp hmem with h | h
          · exact absurd (h ▸ hlt) hc
          · exact ⟨h, hlt⟩
        · rintro ⟨hmem, hlt⟩
          exact ⟨List.mem_cons.mpr (Or.inr hmem), hlt⟩
      refine ⟨shell1, ?_, ⟨Qx0, Qx', hQx0, hQx', ?_⟩, ⟨Qy0, Qy', hQy0, hQy', ?_⟩,
        hother1⟩
      · intro j
        rw [hms1 j]
        by_cases hcond : j ∈ xs ∧ edge < dd.max_speed.getD j 0
        · rw [if_pos hcond, if_pos ((hcover j).mpr hcond)]
        · rw [if_neg hcond, if_neg (fun h => hcond ((hcover j).mp h))]
      · intro j
        rw [hfx j]
        by_cases hcond : j ∈ xs ∧ edge < dd.max_speed.getD j 0
        · rw [if_pos hcond, if_pos ((hcover j).mpr hcond)]
        · rw [if_neg hcond, if_neg (fun h => hcond ((hcover j).mp h))]
      · intro j
        rw [hfy j]
        by_cases hcond : j ∈ xs ∧ edge < dd.max_speed.getD j 0
        · rw [if_pos hcond, if_pos ((hcover j).mpr hcond)]
        · rw [if_neg hcond, if_neg (fun h => hcond ((hcover j).mp h))]

/-- With both momentum quantities present the protection loop never raises. -/
lemma protection_fold_ok (edge : ℚ) :
    ∀ (xs : List ℕ) (dd : Domain),
      (dd.quantities.lookup "xmomentum").isSome →
      (dd.quantities.lookup "ymomentum").isSome →
      ∃ d', xs.foldlM (fun dd2 i => protection_zero_triangle dd2 edge i) dd = .ok d' := by
  intro xs
  induction xs with
  | nil =>
    intro dd _ _
    exact ⟨dd, rfl⟩
  | cons i xs ih =>
    intro dd hx hy
    obtain ⟨Qx, hQx⟩ := Option.isSome_iff_exists.mp hx
    obtain ⟨Qy, hQy⟩ := Option.isSome_iff_exists.mp hy
    have hyx : ("ymomentum" : String) ≠ "xmomentum" := by decide
    rw [List.foldlM_cons]
    by_cases hc : edge < dd.max_speed.getD i 0
    · have hy1 : List.lookup "ymomentum"
          (alist_set dd.quantities "xmomentum" (zero_at Qx i)) = some Qy := by
        rw [alist_set_lookup_ne _ _ _ _ hyx]
        exact hQy
      have hstep : protection_zero_triangle dd edge i = .ok
          { set_quantity_obj (set_quantity_obj dd "xmomentum" (zero_at Qx i))
              "ymomentum" (zero_at Qy i) with
            max_speed := dd.max_speed.set i 0 } := by
        rw [protection_zero_triangle, if_pos hc]
        simp [get_quantity, hQx, hy1, bind, Except.bind, pure, Except.pure,
          set_quantity_obj]
      rw [hstep]
      simp only [bind, Except.bind]
      apply ih
      · simp only [set_quantity_obj]
        rw [alist_set_lookup_ne _ _ _ _ hyx.symm, alist_set_lookup_self]
        simp
      · simp only [set_quantity_obj]
        rw [alist_set_lookup_self]
        simp
    · have hstep : protection_zero_triangle dd edge i = .ok dd := by
        rw [protection_zero_triangle, if_neg hc]
        rfl
      rw [hstep]
      simp only [bind, Except.bind]
      exact ih dd hx hy

/-- Claim C8 (amended): the protection returns without modifying state unless
the feature flag is on and `max(max_speed) ≥ 10`; when the 10-bin histogram
signature holds it zeroes the hard-coded `xmomentum` and `ymomentum` quantities
and the `max_speed` entry of every full triangle whose speed exceeds the upper
edge of bin 8.  The set of quantities to zero is not subclass-provided: with
those two names absent the routine raises instead of being a no-op. -/
theorem apply_protection_spec (d : Domain) :
    (d.protect_against_isolated_degenerate_timesteps = false →
      apply_protection_against_isolated_degenerate_timesteps d = .ok d) ∧
    (list_max d.max_speed < 10 →
      apply_protection_against_isolated_degenerate_timesteps d = .ok d) ∧
    (∀ (hflag : d.protect_against_isolated_degenerate_timesteps = true)
       (hmax : ¬ list_max d.max_speed < 10)
       (hsig : 1 < (histogram d.max_speed (create_bins d.max_speed)).length ∧
         0 < (histogram d.max_speed (create_bins d.max_speed)).getLastD 0 ∧
         (histogram d.max_speed (create_bins d.max_speed)).getD 4 0 = 0 ∧
         (histogram d.max_speed (create_bins d.max_speed)).getD 5 0 = 0 ∧
         (histogram d.max_speed (create_bins d.max_speed)).getD 6 0 = 0 ∧
         (histogram d.max_speed (create_bins d.max_speed)).getD 7 0 = 0 ∧
         (histogram d.max_speed (create_bins d.max_speed)).getD 8 0 = 0)
       (hx : (d.quantities.lookup "xmomentum").isSome)
       (hy : (d.quantities.lookup "ymomentum").isSome),
      ∃ d', apply_protection_against_isolated_degenerate_timesteps d = .ok d' ∧
        d' = { d with quantities := d'.quantities, max_speed := d'.max_speed } ∧
        (∀ j, d'.max_speed.getD j 0 =
          if j < d.number_of_full_triangles ∧
              (create_bins d.max_speed).getLastD 0 < d.max_speed.getD j 0
          then 0 else d.max_speed.getD j 0) ∧
        (∃ Qx Qx', d.quantities.lookup "xmomentum" = some Qx ∧
          d'.quantities.lookup "xmomentum" = some Qx' ∧
          ∀ j, Qx'.centroid_values.getD j 0 =
            if j < d.number_of_full_triangles ∧
                (create_bins d.max_speed).getLastD 0 < d.max_speed.getD j 0
            then 0 else Qx.centroid_values.getD j 0) ∧
        (∃ Qy Qy', d.quantities.lookup "ymomentum" = some Qy ∧
          d'.quantities.lookup "ymomentum" = some Qy' ∧
          ∀ j, Qy'.centroid_values.getD j 0 =
            if j < d.number_of_full_triangles ∧
                (create_bins d.max_speed).getLastD 0 < d.max_speed.getD j 0
            then 0 else Qy.centroid_values.getD j 0) ∧
        (∀ n, n ≠ "xmomentum" → n ≠ "ymomentum" →
          d'.quantities.lookup n = d.quantities.lookup n)) := by
  refine ⟨?_, ?_, ?_⟩
  · intro hflag
    rw [apply_protection_against_isolated_degenerate_timesteps, if_pos hflag]
  · intro hmax
    rw [apply_protection_against_isolated_degenerate_timesteps]
    by_cases hflag : d.protect_against_isolated_degenerate_timesteps = false
    · rw [if_pos hflag]
    · rw [if_neg hflag, if_pos hmax]
  · intro hflag hmax hsig hx hy
    have hcond1 : ¬ (d.protect_against_isolated_degenerate_timesteps = false) := by
      rw [hflag]
      simp
    obtain ⟨d', hfold⟩ := protection_fold_ok ((create_bins d.max_speed).getLastD 0)
      (List.range d.number_of_full_triangles) d hx hy
    obtain ⟨hshell, hms, ⟨Qx, Qx', hQx, hQx', hfx⟩, ⟨Qy, Qy', hQy, hQy', hfy⟩, hother⟩ :=
      protection_fold_spec ((create_bins d.max_speed).getLastD 0)
        (List.range d.number_of_full_triangles) d d'
        (List.nodup_range _) hx hy hfold
    refine ⟨d', ?_, hshell, ?_, ⟨Qx, Qx', hQx, hQx', ?_⟩, ⟨Qy, Qy', hQy, hQy', ?_⟩,
      hother⟩
    · rw [apply_protection_against_isolated_degenerate_timesteps,
        if_neg hcond1, if_neg hmax, if_pos hsig]
      exact hfold
    · intro j
      rw [hms j]
      simp only [List.mem_range]
    · intro j
      rw [hfx j]
      simp only [List.mem_range]
    · intro j
      rw [hfy j]
      simp only [List.mem_range]

/-- A concrete domain showing the degenerate-speed signature with no momentum
quantities registered. -/
def dC8 : Domain := { baseDomain with
  protect_against_isolated_degenerate_timesteps := true
  max_speed := [0, 15]
  number_of_full_triangles := 2 }

/-- Counterexample to claim C8 as stated: when the physics subclass provides no
quantities, the routine is not a no-op — the hard-coded `xmomentum` lookup
raises a `KeyError`. -/
theorem apply_protection_no_quantities_not_noop :
    apply_protection_against_isolated_degenerate_timesteps dC8 =
      .error "KeyError: xmomentum" := by with_unfolding_all rfl

/-- A momentum quantity sample. -/
def qMom : Quantity := ⟨[3, 4], [], [], [], []⟩

/-- The signature domain with both momentum quantities present. -/
def dC8good : Domain := { dC8 with
  quantities := [("xmomentum", qMom), ("ymomentum", qMom)] }

/-- Witness for the amended claim C8 at a concrete two-triangle domain. -/
theorem apply_protection_spec_witness :
    ∃ d', apply_protection_against_isolated_degenerate_timesteps dC8good = .ok d' ∧
      d' = { dC8good with quantities := d'.quantities, max_speed := d'.max_speed } ∧
      (∀ j, d'.max_speed.getD j 0 =
        if j < dC8good.number_of_full_triangles ∧
            (create_bins dC8good.max_speed).getLastD 0 < dC8good.max_speed.getD j 0
        then 0 else dC8good.max_speed.getD j 0) ∧
      (∃ Qx Qx', dC8good.quantities.lookup "xmomentum" = some Qx ∧
        d'.quantities.lookup "xmomentum" = some Qx' ∧
        ∀ j, Qx'.centroid_values.getD j 0 =
          if j < dC8good.number_of_full_triangles ∧
              (create_bins dC8good.max_speed).getLastD 0 < dC8good.max_speed.getD j 0
          then 0 else Qx.centroid_values.getD j 0) ∧
      (∃ Qy Qy', dC8good.quantities.lookup "ymomentum" = some Qy ∧
        d'.quantities.lookup "ymomentum" = some Qy' ∧
        ∀ j, Qy'.centroid_values.getD j 0 =
          if j < dC8good.number_of_full_triangles ∧
              (create_bins dC8good.max_speed).getLastD 0 < dC8good.max_speed.getD j 0
          then 0 else Qy.centroid_values.getD j 0) ∧
      (∀ n, n ≠ "xmomentum" → n ≠ "ymomentum" →
        d'.quantities.lookup n = dC8good.quantities.lookup n) :=
  (apply_protection_spec dC8good).2.2 (by with_unfolding_all decide)
    (by with_unfolding_all decide) (by with_unfolding_all decide)
    (by with_unfolding_all decide) (by with_unfolding_all decide)

/-- The final clamps of `update_timestep`: never overshoot `finaltime` or the
next `yieldtime`; store the result as `self.timestep`. -/
def update_timestep_clamp (d : Domain) (timestep : ℚ) (finaltime : Option ℚ) : Domain :=
  let ts1 := match finaltime with
    | some ft => if ft < d.time + timestep then ft - d.time else timestep
    | none => timestep
  let ts2 := if d.yieldtime < d.time + ts1 then d.yieldtime - d.time else ts1
  { d with timestep := ts2 }

/-- `update_timestep(yieldstep, finaltime)` (the `yieldstep` argument is unused
in the source as well): apply the degenerate-timestep protection, take the
CFL-limited step capped by `evolve_max_timestep`, update the recorded range,
run the small-step protection with its order fallback and stability error, and
clamp against `finaltime` and `yieldtime`. -/
def update_timestep (d : Domain) (yieldstep : ℚ) (finaltime : Option ℚ) :
    Except String Domain :=
  (apply_protection_against_isolated_degenerate_timesteps d).bind (fun d =>
    let timestep := min (d.CFL * d.flux_timestep) d.evolve_max_timestep
    let d := { d with recorded_max_timestep := max timestep d.recorded_max_timestep,
                      recorded_min_timestep := min timestep d.recorded_min_timestep }
    if timestep < d.evolve_min_timestep then
      let d := { d with smallsteps := d.smallsteps + 1 }
      if d.max_smallsteps < d.smallsteps then
        let d := { d with smallsteps := 0 }
        if d._order_ = 1 then
          -- the source clamps the local timestep to `evolve_min_timestep`, logs
          -- `timestepping_statistics(track_speeds=True)` and then raises
          .error "WARNING: Too small timestep reached even after max_smallsteps steps of 1 order scheme"
        else
          .ok (update_timestep_clamp { d with _order_ := 1 } timestep finaltime)
      else .ok (update_timestep_clamp d timestep finaltime)
    else
      let d := { d with smallsteps := 0 }
      let d := if d._order_ = 1 ∧ d.default_order = 2 then { d with _order_ := 2 } else d
      .ok (update_timestep_clamp d timestep finaltime))

/-- Each protection loop step only touches `quantities` and `max_speed`. -/
lemma protection_zero_triangle_shell (dd : Domain) (e : ℚ) (i : ℕ) (dd' : Domain)
    (h : protection_zero_triangle dd e i = .ok dd') :
    dd' = { dd with quantities := dd'.quantities, max_speed := dd'.max_speed } := by
  rw [protection_zero_triangle] at h
  by_cases hc : e < dd.max_speed.getD i 0
  · rw [if_pos hc] at h
    cases hx : dd.quantities.lookup "xmomentum" with
    | none =>
      rw [get_quantity] at h
      simp only [hx, bind, Except.bind] at h
      exact Except.noConfusion h
    | some Qx =>
      simp only [get_quantity, hx, bind, Except.bind] at h
      cases hy : (set_quantity_obj dd "xmomentum" (zero_at Qx i)).quantities.lookup
          "ymomentum" with
      | none =>
        simp only [set_quantity_obj] at hy
        simp only [set_quantity_obj, hy, bind, Except.bind] at h
        exact Except.noConfusion h
      | some Qy =>
        simp only [set_quantity_obj] at hy
        simp only [set_quantity_obj, hy, bind, Except.bind, pure, Except.pure] at h
        obtain rfl := (by simpa using h : _ = dd')
        rfl
  · rw [if_neg hc] at h
    obtain rfl : dd = dd' := by simpa [pure, Except.pure] using h
    rfl

/-- The protection loop only touches `quantities` and `max_speed`. -/
lemma protection_fold_shell (edge : ℚ) :
    ∀ (xs : List ℕ) (dd dp : Domain),
      xs.foldlM (fun dd2 i => protection_zero_triangle dd2 edge i) dd = .ok dp →
      dp = { dd with quantities := dp.quantities, max_speed := dp.max_speed } := by
  intro xs
  induction xs with
  | nil =>
    intro dd dp h
    simp only [List.foldlM_nil] at h
    obtain rfl : dd = dp := by simpa [pure, Except.pure] using h
    rfl
  | cons i xs ih =>
    intro dd dp h
    rw [List.foldlM_cons] at h
    cases hstep : protection_zero_triangle dd edge i with
    | error e =>
      rw [hstep] at h
      simp [bind, Except.bind] at h
    | ok dd1 =>
      rw [hstep] at h
      simp only [bind, Except.bind] at h
      exact qms_only_trans (ih dd1 dp h) (protection_zero_triangle_shell dd edge i dd1 hstep)

/-- The whole protection run only touches `quantities` and `max_speed`. -/
lemma apply_protection_shell (d dp : Domain)
    (h : apply_protection_against_isolated_degenerate_timesteps d = .ok dp) :
    dp = { d with quantities := dp.quantities, max_speed := dp.max_speed } := by
  rw [apply_protection_against_isolated_degenerate_timesteps] at h
  by_cases h1 : d.protect_against_isolated_degenerate_timesteps = false
  · rw [if_pos h1] at h
    obtain rfl : d = dp := by simpa using h
    rfl
  · rw [if_neg h1] at h
    by_cases h2 : list_max d.max_speed < 10
    · rw [if_pos h2] at h
      obtain rfl : d = dp := by simpa using h
      rfl
    · rw [if_neg h2] at h
      by_cases h3 : 1 < (histogram d.max_speed (create_bins d.max_speed)).length ∧
          0 < (histogram d.max_speed (create_bins d.max_speed)).getLastD 0 ∧
          (histogram d.max_speed (create_bins d.max_speed)).getD 4 0 = 0 ∧
          (histogram d.max_speed (create_bins d.max_speed)).getD 5 0 = 0 ∧
          (histogram d.max_speed (create_bins d.max_speed)).getD 6 0 = 0 ∧
          (histogram d.max_speed (create_bins d.max_speed)).getD 7 0 = 0 ∧
          (histogram d.max_speed (create_bins d.max_speed)).getD 8 0 = 0
      · rw [if_pos h3] at h
        exact protection_fold_shell _ _ _ _ h
      · rw [if_neg h3] at h
        obtain rfl : d = dp := by simpa using h
        rfl

/-- The `finaltime` part of the clamp, as a min. -/
def ft_min (ts time : ℚ) : Option ℚ → ℚ
  | some f => min ts (f - time)
  | none => ts

/-- The clamp equals the min of the pre-clamp step, `finaltime - time`, and
`yieldtime - time`. -/
lemma update_timestep_clamp_spec (d : Domain) (ts : ℚ) (ft : Option ℚ) :
    update_timestep_clamp d ts ft =
      { d with timestep := min (ft_min ts d.time ft) (d.yieldtime - d.time) } := by
  rw [update_timestep_clamp.eq_def]
  cases ft with
  | none =>
    simp only [ft_min]
    by_cases h : d.yieldtime < d.time + ts
    · rw [if_pos h]
      have : min ts (d.yieldtime - d.time) = d.yieldtime - d.time := by
        apply min_eq_right
        linarith
      rw [this]
    · rw [if_neg h]
      have : min ts (d.yieldtime - d.time) = ts := by
        apply min_eq_left
        linarith [not_lt.mp h]
      rw [this]
  | some f =>
    simp only [ft_min]
    by_cases h1 : f < d.time + ts
    · rw [if_pos h1]
      have e1 : min ts (f - d.time) = f - d.time := by
        apply min_eq_right
        linarith
      rw [e1]
      by_cases h2 : d.yieldtime < d.time + (f - d.time)
      · rw [if_pos h2]
        have : min (f - d.time) (d.yieldtime - d.time) = d.yieldtime - d.time := by
          apply min_eq_right
          linarith
        rw [this]
      · rw [if_neg h2]
        have : min (f - d.time) (d.yieldtime - d.time) = f - d.time := by
          apply min_eq_left
          linarith [not_lt.mp h2]
        rw [this]
    · rw [if_neg h1]
      have e1 : min ts (f - d.time) = ts := by
        apply min_eq_left
        linarith [not_lt.mp h1]
      rw [e1]
      by_cases h2 : d.yieldtime < d.time + ts
      · rw [if_pos h2]
        have : min ts (d.yieldtime - d.time) = d.yieldtime - d.time := by
          apply min_eq_right
          linarith
        rw [this]
      · rw [if_neg h2]
        have : min ts (d.yieldtime - d.time) = ts := by
          apply min_eq_left
          linarith [not_lt.mp h2]
        rw [this]

/-- What a successful `update_timestep` does to the time state: `time`,
`yieldtime` and the step bounds are untouched and `timestep` becomes the
CFL-limited step clamped by `evolve_max_timestep`, `finaltime - time` and
`yieldtime - time`. -/
lemma update_timestep_ok_spec (d : Domain) (ys : ℚ) (ft : Option ℚ) (d' : Domain)
    (h : update_timestep d ys ft = .ok d') :
    d'.time = d.time ∧ d'.yieldtime = d.yieldtime ∧ d'.starttime = d.starttime ∧
    d'.evolve_max_timestep = d.evolve_max_timestep ∧
    d'.evolve_min_timestep = d.evolve_min_timestep ∧
    d'.timestep =
      min (ft_min (min (d.CFL * d.flux_timestep) d.evolve_max_timestep) d.time ft)
        (d.yieldtime - d.time) := by
  rw [update_timestep] at h
  cases hp : apply_protection_against_isolated_degenerate_timesteps d with
  | error e =>
    rw [hp] at h
    exact Except.noConfusion h
  | ok dp =>
    rw [hp] at h
    simp only [Except.bind] at h
    have shell := apply_protection_shell d dp hp
    have hCFL : dp.CFL = d.CFL := by rw [shell]
    have hflux : dp.flux_timestep = d.flux_timestep := by rw [shell]
    have hmaxt : dp.evolve_max_timestep = d.evolve_max_timestep := by rw [shell]
    have hmint : dp.evolve_min_timestep = d.evolve_min_timestep := by rw [shell]
    have htime : dp.time = d.time := by rw [shell]
    have hyield : dp.yieldtime = d.yieldtime := by rw [shell]
    have hstart : dp.starttime = d.starttime := by rw [shell]
    split at h
    · split at h
      · split at h
        · exact Except.noConfusion h
        · obtain rfl := (by simpa using h :
            update_timestep_clamp _ _ _ = d')
          rw [update_timestep_clamp_spec]
          refine ⟨htime, hyield, hstart, hmaxt, hmint, ?_⟩
          show min (ft_min (min (dp.CFL * dp.flux_timestep) dp.evolve_max_timestep)
            dp.time ft) (dp.yieldtime - dp.time) = _
          rw [hCFL, hflux, hmaxt, htime, hyield]
      · obtain rfl := (by simpa using h :
          update_timestep_clamp _ _ _ = d')
        rw [update_timestep_clamp_spec]
        refine ⟨htime, hyield, hstart, hmaxt, hmint, ?_⟩
        show min (ft_min (min (dp.CFL * dp.flux_timestep) dp.evolve_max_timestep)
          dp.time ft) (dp.yieldtime - dp.time) = _
        rw [hCFL, hflux, hmaxt, htime, hyield]
    · split at h
      · obtain rfl := (by simpa using h :
          update_timestep_clamp _ _ _ = d')
        rw [update_timestep_clamp_spec]
        refine ⟨htime, hyield, hstart, hmaxt, hmint, ?_⟩
        show min (ft_min (min (dp.CFL * dp.flux_timestep) dp.evolve_max_timestep)
          dp.time ft) (dp.yieldtime - dp.time) = _
        rw [hCFL, hflux, hmaxt, htime, hyield]
      · obtain rfl := (by simpa using h :
          update_timestep_clamp _ _ _ = d')
        rw [update_timestep_clamp_spec]
        refine ⟨htime, hyield, hstart, hmaxt, hmint, ?_⟩
        show min (ft_min (min (dp.CFL * dp.flux_timestep) dp.evolve_max_timestep)
          dp.time ft) (dp.yieldtime - dp.time) = _
        rw [hCFL, hflux, hmaxt, htime, hyield]

/-- Claim C1 (amended): after a normal return of `update_timestep`, `timestep`
equals the min of the CFL-limited step (capped by `evolve_max_timestep`),
`finaltime - time` and `yieldtime - time`; in particular it never exceeds
`evolve_max_timestep` — but `evolve_min_timestep ≤ timestep` need not hold. -/
theorem update_timestep_result_spec (d : Domain) (ys : ℚ) (ft : Option ℚ)
    (d' : Domain) (h : update_timestep d ys ft = .ok d') :
    d'.timestep ≤ d.evolve_max_timestep ∧
    d'.timestep =
      min (ft_min (min (d.CFL * d.flux_timestep) d.evolve_max_timestep) d.time ft)
        (d.yieldtime - d.time) := by
  obtain ⟨_, _, _, _, _, hts⟩ := update_timestep_ok_spec d ys ft d' h
  refine ⟨?_, hts⟩
  rw [hts]
  have h1 : ft_min (min (d.CFL * d.flux_timestep) d.evolve_max_timestep) d.time ft ≤
      min (d.CFL * d.flux_timestep) d.evolve_max_timestep := by
    cases ft with
    | none => exact le_refl _
    | some f => exact min_le_left _ _
  calc min (ft_min (min (d.CFL * d.flux_timestep) d.evolve_max_timestep) d.time ft)
        (d.yieldtime - d.time)
      ≤ ft_min (min (d.CFL * d.flux_timestep) d.evolve_max_timestep) d.time ft :=
        min_le_left _ _
    _ ≤ min (d.CFL * d.flux_timestep) d.evolve_max_timestep := h1
    _ ≤ d.evolve_max_timestep := min_le_right _ _

/-- A domain in the small-step grace period: tiny flux timestep, zero
`smallsteps`. -/
def dC1 : Domain := { baseDomain with
  flux_timestep := 1 / 10 ^ 9
  yieldtime := 100 }

/-- Counterexample to claim C1 as stated: `update_timestep` returns normally
with `timestep` strictly below `evolve_min_timestep` (the small-step counter
has not yet exceeded `max_smallsteps`). -/
theorem update_timestep_below_min :
    ∃ d', update_timestep dC1 1 none = .ok d' ∧
      d'.timestep < d'.evolve_min_timestep :=
  ⟨_, by with_unfolding_all rfl, by with_unfolding_all decide⟩

/-- Claim C2: the small-step protection of `update_timestep`: a CFL-limited
step below `evolve_min_timestep` increments `smallsteps`; once the counter
exceeds `max_smallsteps` it is reset and order 1 raises the stability error
while order 2 drops to order 1; a step at least `evolve_min_timestep` resets
the counter and restores order 2 when it had been dropped with
`default_order = 2`. -/
theorem update_timestep_smallsteps_spec (d dp : Domain) (ys : ℚ) (ft : Option ℚ)
    (hp : apply_protection_against_isolated_degenerate_timesteps d = .ok dp) :
    (min (d.CFL * d.flux_timestep) d.evolve_max_timestep < d.evolve_min_timestep →
      (d.max_smallsteps < d.smallsteps + 1 →
        (d._order_ = 1 → ∃ msg, update_timestep d ys ft = .error msg) ∧
        (d._order_ ≠ 1 → ∃ d', update_timestep d ys ft = .ok d' ∧
          d'.smallsteps = 0 ∧ d'._order_ = 1)) ∧
      (¬ d.max_smallsteps < d.smallsteps + 1 →
        ∃ d', update_timestep d ys ft = .ok d' ∧
          d'.smallsteps = d.smallsteps + 1 ∧ d'._order_ = d._order_)) ∧
    (¬ min (d.CFL * d.flux_timestep) d.evolve_max_timestep < d.evolve_min_timestep →
      ∃ d', update_timestep d ys ft = .ok d' ∧ d'.smallsteps = 0 ∧
        d'._order_ = (if d._order_ = 1 ∧ d.default_order = 2 then 2 else d._order_)) := by
  have shell := apply_protection_shell d dp hp
  have hCFL : dp.CFL = d.CFL := by rw [shell]
  have hflux : dp.flux_timestep = d.flux_timestep := by rw [shell]
  have hmaxt : dp.evolve_max_timestep = d.evolve_max_timestep := by rw [shell]
  have hmint : dp.evolve_min_timestep = d.evolve_min_timestep := by rw [shell]
  have hsmall : dp.smallsteps = d.smallsteps := by rw [shell]
  have hmaxs : dp.max_smallsteps = d.max_smallsteps := by rw [shell]
  have horder : dp._order_ = d._order_ := by rw [shell]
  have hdef : dp.default_order = d.default_order := by rw [shell]
  have hunfold : update_timestep d ys ft =
      (if min (dp.CFL * dp.flux_timestep) dp.evolve_max_timestep <
          dp.evolve_min_timestep then
        if dp.max_smallsteps < dp.smallsteps + 1 then
          if dp._order_ = 1 then
            .error "WARNING: Too small timestep reached even after max_smallsteps steps of 1 order scheme"
          else
            .ok (update_timestep_clamp
              { dp with
                recorded_max_timestep :=
                  max (min (dp.CFL * dp.flux_timestep) dp.evolve_max_timestep)
                    dp.recorded_max_timestep,
                recorded_min_timestep :=
                  min (min (dp.CFL * dp.flux_timestep) dp.evolve_max_timestep)
                    dp.recorded_min_timestep,
                smallsteps := 0, _order_ := 1 }
              (min (dp.CFL * dp.flux_timestep) dp.evolve_max_timestep) ft)
        else
          .ok (update_timestep_clamp
            { dp with
              recorded_max_timestep :=
                max (min (dp.CFL * dp.flux_timestep) dp.evolve_max_timestep)
                  dp.recorded_max_timestep,
              recorded_min_timestep :=
                min (min (dp.CFL * dp.flux_timestep) dp.evolve_max_timestep)
                  dp.recorded_min_timestep,
              smallsteps := dp.smallsteps + 1 }
            (min (dp.CFL * dp.flux_timestep) dp.evolve_max_timestep) ft)
      else
        .ok (update_timestep_clamp
          (if dp._order_ = 1 ∧ dp.default_order = 2 then
            { dp with
              recorded_max_timestep :=
                max (min (dp.CFL * dp.flux_timestep) dp.evolve_max_timestep)
                  dp.recorded_max_timestep,
              recorded_min_timestep :=
                min (min (dp.CFL * dp.flux_timestep) dp.evolve_max_timestep)
                  dp.recorded_min_timestep,
              smallsteps := 0, _order_ := 2 }
          else
            { dp with
              recorded_max_timestep :=
                max (min (dp.CFL * dp.flux_timestep) dp.evolve_max_timestep)
                  dp.recorded_max_timestep,
              recorded_min_timestep :=
                min (min (dp.CFL * dp.flux_timestep) dp.evolve_max_timestep)
                  dp.recorded_min_timestep,
              smallsteps := 0 })
          (min (dp.CFL * dp.flux_timestep) dp.evolve_max_timestep) ft)) := by
    rw [update_timestep, hp]
    rfl
  rw [hCFL, hflux, hmaxt, hmint, hmaxs, hsmall, horder, hdef] at hunfold
  constructor
  · intro hb1
    constructor
    · intro hb2
      constructor
      · intro hord
        rw [hunfold, if_pos hb1, if_pos hb2, if_pos hord]
        exact ⟨_, rfl⟩
      · intro hord
        rw [hunfold, if_pos hb1, if_pos hb2, if_neg hord]
        refine ⟨_, rfl, ?_, ?_⟩
        · rw [update_timestep_clamp_spec]
        · rw [update_timestep_clamp_spec]
    · intro hb2
      rw [hunfold, if_pos hb1, if_neg hb2]
      refine ⟨_, rfl, ?_, ?_⟩
      · rw [update_timestep_clamp_spec]
      · rw [update_timestep_clamp_spec]
  · intro hb1
    rw [hunfold, if_neg hb1]
    by_cases hrest : d._order_ = 1 ∧ d.default_order = 2
    · rw [if_pos hrest]
      refine ⟨_, rfl, ?_, ?_⟩
      · rw [update_timestep_clamp_spec]
      · rw [update_timestep_clamp_spec]
        rw [if_pos hrest]
    · rw [if_neg hrest]
      refine ⟨_, rfl, ?_, ?_⟩
      · rw [update_timestep_clamp_spec]
      · rw [update_timestep_clamp_spec]
        rw [if_neg hrest]

/-- Witness for the amended claim C1 at a concrete successful call. -/
theorem update_timestep_result_spec_witness :
    ∃ d', update_timestep dC1 1 none = .ok d' ∧
      d'.timestep ≤ dC1.evolve_max_timestep ∧
      d'.timestep =
        min (ft_min (min (dC1.CFL * dC1.flux_timestep) dC1.evolve_max_timestep)
          dC1.time none) (dC1.yieldtime - dC1.time) :=
  ⟨_, by with_unfolding_all rfl,
    update_timestep_result_spec dC1 1 none _ (by with_unfolding_all rfl)⟩

/-- Witness for claim C2 at a concrete domain (protection is a no-op there). -/
theorem update_timestep_smallsteps_spec_witness :
    (min (baseDomain.CFL * baseDomain.flux_timestep) baseDomain.evolve_max_timestep <
        baseDomain.evolve_min_timestep →
      (baseDomain.max_smallsteps < baseDomain.smallsteps + 1 →
        (baseDomain._order_ = 1 →
          ∃ msg, update_timestep baseDomain 1 none = .error msg) ∧
        (baseDomain._order_ ≠ 1 →
          ∃ d', update_timestep baseDomain 1 none = .ok d' ∧
            d'.smallsteps = 0 ∧ d'._order_ = 1)) ∧
      (¬ baseDomain.max_smallsteps < baseDomain.smallsteps + 1 →
        ∃ d', update_timestep baseDomain 1 none = .ok d' ∧
          d'.smallsteps = baseDomain.smallsteps + 1 ∧
          d'._order_ = baseDomain._order_)) ∧
    (¬ min (baseDomain.CFL * baseDomain.flux_timestep) baseDomain.evolve_max_timestep <
        baseDomain.evolve_min_timestep →
      ∃ d', update_timestep baseDomain 1 none = .ok d' ∧ d'.smallsteps = 0 ∧
        d'._order_ = (if baseDomain._order_ = 1 ∧ baseDomain.default_order = 2 then 2
          else baseDomain._order_)) :=
  update_timestep_smallsteps_spec baseDomain baseDomain 1 none rfl

/-- Modelled from the spec: the external `Quantity.backup_centroid_values()`
copies the centroid values into the backup buffer. -/
def Quantity.backup_centroid_values (Q : Quantity) : Quantity :=
  { Q with centroid_backup_values := Q.centroid_values }

/-- Modelled from the spec: the external `Quantity.saxpy_centroid_values(a,b)`
combines `centroid ← a·centroid + b·backup`, elementwise. -/
def Quantity.saxpy_centroid_values (Q : Quantity) (a b : ℚ) : Quantity :=
  { Q with centroid_values :=
      (Q.centroid_values.zip Q.centroid_backup_values).map (fun q => a * q.1 + b * q.2) }

/-- `backup_conserved_quantities()`: back up the centroid values of every
conserved quantity. -/
def backup_conserved_quantities (d : Domain) : Domain :=
  { d with quantities := d.quantities.map (fun kv =>
      (kv.1, if kv.1 ∈ d.conserved_quantities then kv.2.backup_centroid_values else kv.2)) }

/-- `saxpy_conserved_quantities(a, b)`: combine current and backed-up centroid
values as `C = a·C + b·S` for every conserved quantity. -/
def saxpy_conserved_quantities (d : Domain) (a b : ℚ) : Domain :=
  { d with quantities := d.quantities.map (fun kv =>
      (kv.1, if kv.1 ∈ d.conserved_quantities then kv.2.saxpy_centroid_values a b
        else kv.2)) }

/-- `update_conserved_quantities()`: apply the external `Quantity.update(Δt)`
kernel to every conserved quantity with the current `self.timestep`. -/
def update_conserved_quantities (K : Kernels) (d : Domain) : Domain :=
  { d with quantities := d.quantities.map (fun kv =>
      (kv.1, if kv.1 ∈ d.conserved_quantities then K.quantity_update d.timestep kv.2
        else kv.2)) }

/-- The in-process scatter of `update_ghosts`:
`num.put(Q_cv, Idg, num.take(Q_cv, Idf))` — read the full slots first, then
write them into the ghost slots. -/
def scatter (cv : List ℚ) (idg idf : List ℕ) : List ℚ :=
  (idg.zip (idf.map (fun j => cv.getD j 0))).foldl (fun acc p => acc.set p.1 p.2) cv

/-- `update_ghosts()`: when the local processor has an entry in
`full_send_dict`, copy conserved centroid values from the full slots to the
ghost slots (cross-process transport is external and has already happened). -/
def update_ghosts (d : Domain) : Except String Domain :=
  match d.full_send_dict.lookup d.processor with
  | none => .ok d
  | some idf =>
    match d.ghost_recv_dict.lookup d.processor with
    | none => .error "KeyError: ghost_recv_dict"
    | some idg =>
      .ok { d with quantities := d.quantities.map (fun kv =>
        (kv.1, if kv.1 ∈ d.conserved_quantities then
          { kv.2 with centroid_values := scatter kv.2.centroid_values idg idf }
        else kv.2)) }

/-- `distribute_to_vertices_and_edges()`: extrapolate each conserved quantity
to first or second order according to `_order_`; any other order raises. -/
def distribute_to_vertices_and_edges (K : Kernels) (d : Domain) :
    Except String Domain :=
  if d._order_ = 1 then
    .ok { d with quantities := d.quantities.map (fun kv =>
      (kv.1, if kv.1 ∈ d.conserved_quantities then K.extrapolate_first_order kv.2
        else kv.2)) }
  else if d._order_ = 2 then
    .ok { d with quantities := d.quantities.map (fun kv =>
      (kv.1, if kv.1 ∈ d.conserved_quantities then K.extrapolate_second_order kv.2
        else kv.2)) }
  else .error "Unknown order"

/-- The internal calls a scheme step makes, recorded in order. -/
inductive Ev
  | backup
  | compute_fluxes
  | compute_forcing_terms
  | update_timestep
  | update_conserved
  | update_ghosts
  | distribute
  | update_boundary
  | set_time (t : ℚ)
  | saxpy (a b : ℚ)
deriving DecidableEq

/-- Run a pure driver call, recording its event. -/
def tracedP (e : Ev) (f : Domain → Domain) (p : Domain × List Ev) : Domain × List Ev :=
  (f p.1, p.2 ++ [e])

/-- Run a fallible driver call, recording its event. -/
def tracedE (e : Ev) (f : Domain → Except String Domain) (p : Domain × List Ev) :
    Except String (Domain × List Ev) :=
  (f p.1).map (fun d2 => (d2, p.2 ++ [e]))

/-- `evolve_one_euler_step(yieldstep, finaltime)`:
compute_fluxes → compute_forcing_terms → update_timestep →
update_conserved_quantities → update_ghosts → time += timestep →
distribute_to_vertices_and_edges → update_boundary. -/
def evolve_one_euler_step (K : Kernels) (d : Domain) (yieldstep : ℚ)
    (finaltime : Option ℚ) : Except String (Domain × List Ev) := do
  let p1 := tracedP .compute_fluxes K.compute_fluxes (d, [])
  let p2 := tracedP .compute_forcing_terms K.compute_forcing_terms p1
  let p3 ← tracedE .update_timestep (fun dd => update_timestep dd yieldstep finaltime) p2
  let p4 := tracedP .update_conserved (update_conserved_quantities K) p3
  let p5 ← tracedE .update_ghosts update_ghosts p4
  let p6 := tracedP (.set_time (p5.1.time + p5.1.timestep))
    (fun dd => { dd with time := dd.time + dd.timestep }) p5
  let p7 ← tracedE .distribute (distribute_to_vertices_and_edges K) p6
  tracedE .update_boundary update_boundary p7

/-- `evolve_one_rk2_step(yieldstep, finaltime)`: a full Euler sub-step, a
second Euler update reusing the same timestep, then the SSP combination
`Q ← ½·Q² + ½·S` and a ghost / reconstruction / boundary refresh. -/
def evolve_one_rk2_step (K : Kernels) (d : Domain) (yieldstep : ℚ)
    (finaltime : Option ℚ) : Except String (Domain × List Ev) := do
  let p0 := tracedP .backup backup_conserved_quantities (d, [])
  let p1 := tracedP .compute_fluxes K.compute_fluxes p0
  let p2 := tracedP .compute_forcing_terms K.compute_forcing_terms p1
  let p3 ← tracedE .update_timestep (fun dd => update_timestep dd yieldstep finaltime) p2
  let p4 := tracedP .update_conserved (update_conserved_quantities K) p3
  let p5 ← tracedE .update_ghosts update_ghosts p4
  let p6 := tracedP (.set_time (p5.1.time + p5.1.timestep))
    (fun dd => { dd with time := dd.time + dd.timestep }) p5
  let p7 ← tracedE .distribute (distribute_to_vertices_and_edges K) p6
  let p8 ← tracedE .update_boundary update_boundary p7
  let p9 := tracedP .compute_fluxes K.compute_fluxes p8
  let p10 := tracedP .compute_forcing_terms K.compute_forcing_terms p9
  let p11 := tracedP .update_conserved (update_conserved_quantities K) p10
  let p12 := tracedP (.saxpy (1/2) (1/2))
    (fun dd => saxpy_conserved_quantities dd (1/2) (1/2)) p11
  let p13 ← tracedE .update_ghosts update_ghosts p12
  let p14 ← tracedE .distribute (distribute_to_vertices_and_edges K) p13
  tracedE .update_boundary update_boundary p14

/-- `evolve_one_rk3_step(yieldstep, finaltime)`: a full Euler sub-step, then
`Q ← ¼·Q² + ¾·S` with `time = t₀ + Δt·½`, then `Q ← ⅔·Q³ + ⅓·S` with
`time = t₀ + Δt`; each combination is followed by ghost, reconstruction and
boundary refresh, and only the first sub-step calls `update_timestep`. -/
def evolve_one_rk3_step (K : Kernels) (d : Domain) (yieldstep : ℚ)
    (finaltime : Option ℚ) : Except String (Domain × List Ev) := do
  let p0 := tracedP .backup backup_conserved_quantities (d, [])
  let initial_time := p0.1.time
  let p1 := tracedP .compute_fluxes K.compute_fluxes p0
  let p2 := tracedP .compute_forcing_terms K.compute_forcing_terms p1
  let p3 ← tracedE .update_timestep (fun dd => update_timestep dd yieldstep finaltime) p2
  let p4 := tracedP .update_conserved (update_conserved_quantities K) p3
  let p5 ← tracedE .update_ghosts update_ghosts p4
  let p6 := tracedP (.set_time (p5.1.time + p5.1.timestep))
    (fun dd => { dd with time := dd.time + dd.timestep }) p5
  let p7 ← tracedE .distribute (distribute_to_vertices_and_edges K) p6
  let p8 ← tracedE .update_boundary update_boundary p7
  let p9 := tracedP .compute_fluxes K.compute_fluxes p8
  let p10 := tracedP .compute_forcing_terms K.compute_forcing_terms p9
  let p11 := tracedP .update_conserved (update_conserved_quantities K) p10
  let p12 := tracedP (.saxpy (1/4) (3/4))
    (fun dd => saxpy_conserved_quantities dd (1/4) (3/4)) p11
  let p13 ← tracedE .update_ghosts update_ghosts p12
  let p14 := tracedP (.set_time (initial_time + p13.1.timestep * (1/2)))
    (fun dd => { dd with time := initial_time + dd.timestep * (1/2) }) p13
  let p15 ← tracedE .distribute (distribute_to_vertices_and_edges K) p14
  let p16 ← tracedE .update_boundary update_boundary p15
  let p17 := tracedP .compute_fluxes K.compute_fluxes p16
  let p18 := tracedP .compute_forcing_terms K.compute_forcing_terms p17
  let p19 := tracedP .update_conserved (update_conserved_quantities K) p18
  let p20 := tracedP (.saxpy (2/3) (1/3))
    (fun dd => saxpy_conserved_quantities dd (2/3) (1/3)) p19
  let p21 ← tracedE .update_ghosts update_ghosts p20
  let p22 := tracedP (.set_time (initial_time + p21.1.timestep))
    (fun dd => { dd with time := initial_time + dd.timestep }) p21
  let p23 ← tracedE .distribute (distribute_to_vertices_and_edges K) p22
  tracedE .update_boundary update_boundary p23

/-- Modelled from the spec: the configuration constant `epsilon` imported from
`anuga.config` (not among the sources); the single-precision guard `1.0e-12`
used in the finaltime comparison of the evolve loop. -/
def epsilon : ℚ := 1 / 10 ^ 12

/-- How an `evolve` run ends: the terminal `finaltime` yield, running out of
iteration fuel (the source loop is unbounded), or a raised exception. -/
inductive EvolveOutcome
  | finished
  | fuel_exhausted
  | failed (msg : String)
deriving DecidableEq

/-- The scheme dispatch of the evolve loop; an unrecognised method name leaves
the domain untouched (the source loop body then does nothing). -/
def evolve_dispatch (K : Kernels) (yieldstep : ℚ) (finaltime : Option ℚ)
    (d : Domain) : Except String (Domain × List Ev) :=
  if get_timestepping_method d = "euler" then
    evolve_one_euler_step K d yieldstep finaltime
  else if get_timestepping_method d = "rk2" then
    evolve_one_rk2_step K d yieldstep finaltime
  else if get_timestepping_method d = "rk3" then
    evolve_one_rk3_step K d yieldstep finaltime
  else .ok (d, [])

/-- The step-count bookkeeping after a scheme step. -/
def evolve_bump (d : Domain) : Domain :=
  { d with number_of_steps := d.number_of_steps + 1,
           number_of_first_order_steps :=
             d.number_of_first_order_steps + (if d._order_ = 1 then 1 else 0) }

/-- The finaltime check of the evolve loop: `some` ends the loop (with the
overshoot error or the terminal yield at `finaltime`), `none` continues. -/
def evolve_final_check (finaltime : Option ℚ) (d : Domain) :
    Option (List ℚ × EvolveOutcome) :=
  match finaltime with
  | none => none
  | some f =>
    if f - epsilon ≤ d.time then
      some (if f < d.time then
        ([], .failed "WARNING (domain.py): time overshot finaltime.")
      else ([f], .finished))
    else none

/-- The reinitialisation after an intermediate yield. -/
def evolve_reset (yieldstep : ℚ) (d : Domain) : Domain :=
  { d with yieldtime := d.yieldtime + yieldstep,
           recorded_min_timestep := d.evolve_max_timestep,
           recorded_max_timestep := d.evolve_min_timestep,
           number_of_steps := 0,
           number_of_first_order_steps := 0,
           max_speed := List.replicate d.number_of_elements 0 }

/-- The `while True` loop of `evolve`, bounded by `fuel` iterations: run one
scheme step, bump the counters, end at `finaltime`, and yield (then reset) at
each `yieldtime` crossing.  Returns the yielded times in order together with
the outcome. -/
def evolve_loop (K : Kernels) (yieldstep : ℚ) (finaltime : Option ℚ) :
    ℕ → Domain → List ℚ × EvolveOutcome
  | 0, _ => ([], .fuel_exhausted)
  | fuel + 1, d =>
    match evolve_dispatch K yieldstep finaltime d with
    | .error msg => ([], .failed msg)
    | .ok (d1, _) =>
      let d2 := evolve_bump d1
      match evolve_final_check finaltime d2 with
      | some r => r
      | none =>
        if d2.yieldtime ≤ d2.time then
          let r := evolve_loop K yieldstep finaltime fuel (evolve_reset yieldstep d2)
          (d2.time :: r.1, r.2)
        else
          evolve_loop K yieldstep finaltime fuel d2

/-- `evolve(yieldstep, finaltime, duration, skip_initial_step)` as the list of
model times the generator yields, in order, together with the loop outcome
under the given iteration fuel.  Faithful quirks kept from the source: the
loop tests the *local* `finaltime` argument (so a `duration`-only call never
takes the terminal branch even though `self.finaltime` is set), and the times
yielded are the relative `self.time`, whose start value is whatever
`self.time` holds when `evolve` begins (not `starttime`). -/
def evolve (K : Kernels) (d : Domain) (yieldstep finaltime duration : Option ℚ)
    (skip_initial_step : Bool) (fuel : ℕ) :
    Except String (List ℚ × EvolveOutcome) := do
  if d.boundary_objects.isNone then
    .error "Boundary tags must be bound to boundary objects before evolving system"
  else
    let ys := yieldstep.getD d.evolve_max_timestep
    let d := { d with _order_ := d.default_order }
    if finaltime.isSome && duration.isSome then
      .error "Only one of finaltime and duration may be specified"
    else
      let d := match finaltime with
        | some f => { d with finaltime := some f }
        | none => d
      let d := match duration with
        | some dur => { d with finaltime := some (d.starttime + dur) }
        | none => d
      let d := { d with yieldtime := d.time + ys,
                        recorded_min_timestep := d.evolve_max_timestep,
                        recorded_max_timestep := d.evolve_min_timestep,
                        number_of_steps := 0,
                        number_of_first_order_steps := 0 }
      let d ← update_ghosts d
      let d ← distribute_to_vertices_and_edges K d
      -- update_extrema: no monitored quantities are modelled, so the initial
      -- call is a no-op; checkpoint restore is delegated external I/O
      let d ← update_boundary d
      let initial_yields := if skip_initial_step then [] else [d.time]
      let r := evolve_loop K ys finaltime fuel d
      pure (initial_yields ++ r.1, r.2)

/-- A fold of steps that only touch `quantities` only touches `quantities`. -/
lemma foldlM_qonly {α : Type} (f : Domain → α → Except String Domain)
    (hf : ∀ dd a dd', f dd a = .ok dd' → dd' = { dd with quantities := dd'.quantities }) :
    ∀ (xs : List α) (dd d' : Domain), xs.foldlM f dd = .ok d' →
      d' = { dd with quantities := d'.quantities } := by
  intro xs
  induction xs with
  | nil =>
    intro dd d' h
    simp only [List.foldlM_nil] at h
    obtain rfl : dd = d' := by simpa [pure, Except.pure] using h
    rfl
  | cons a xs ih =>
    intro dd d' h
    rw [List.foldlM_cons] at h
    cases hstep : f dd a with
    | error e =>
      rw [hstep] at h
      simp [bind, Except.bind] at h
    | ok dd1 =>
      rw [hstep] at h
      simp only [bind, Except.bind] at h
      exact quantities_only_trans (ih dd1 d' h) (hf dd a dd1 hstep)

lemma write_boundary_step_shell (i : ℕ) (q : List ℚ) (dd : Domain) (p : ℕ × String)
    (d' : Domain) (h : write_boundary_step i q dd p = .ok d') :
    d' = { dd with quantities := d'.quantities } := by
  rw [write_boundary_step] at h
  cases hq : get_quantity dd p.2 with
  | error e =>
    rw [hq] at h
    simp [bind, Except.bind] at h
  | ok Q =>
    rw [hq] at h
    simp only [bind, Except.bind, pure, Except.pure] at h
    obtain rfl : set_quantity_obj dd p.2
        { Q with boundary_values := Q.boundary_values.set i (q.getD p.1 0) } = d' := by
      simpa using h
    rfl

lemma write_boundary_values_shell (dd : Domain) (i : ℕ) (q : List ℚ) (d' : Domain)
    (h : write_boundary_values dd i q = .ok d') :
    d' = { dd with quantities := d'.quantities } :=
  foldlM_qonly (write_boundary_step i q) (write_boundary_step_shell i q)
    dd.evolved_quantities.enum dd d' h

lemma update_boundary_entry_shell (dd : Domain) (i : ℕ)
    (entry : (ℕ × ℕ) × Option Boundary) (d' : Domain)
    (h : update_boundary_entry dd i entry = .ok d') :
    d' = { dd with quantities := d'.quantities } := by
  rw [update_boundary_entry] at h
  cases hB : entry.2 with
  | none =>
    rw [hB] at h
    obtain rfl : dd = d' := by simpa using h
    rfl
  | some B =>
    rw [hB] at h
    simp only at h
    by_cases h1 : (B.evaluate entry.1.1 entry.1.2).length = dd.evolved_quantities.length
    · rw [if_pos h1] at h
      exact write_boundary_values_shell dd i _ d' h
    · rw [if_neg h1] at h
      by_cases h2 : (B.evaluate entry.1.1 entry.1.2).length = dd.conserved_quantities.length
      · rw [if_pos h2] at h
        cases hge : get_evolved_quantities dd entry.1.1 none (some entry.1.2) with
        | error e =>
          rw [hge] at h
          simp [bind, Except.bind] at h
        | ok qe =>
          rw [hge] at h
          simp only [bind, Except.bind] at h
          cases hcv : conserved_values_to_evolved_values
              (B.evaluate entry.1.1 entry.1.2) qe with
          | error e =>
            rw [hcv] at h
            simp [bind, Except.bind] at h
          | ok q2 =>
            rw [hcv] at h
            simp only [bind, Except.bind] at h
            exact write_boundary_values_shell dd i q2 d' h
      · rw [if_neg h2] at h
        exact Except.noConfusion h

lemma update_boundary_shell (d d' : Domain) (h : update_boundary d = .ok d') :
    d' = { d with quantities := d'.quantities } := by
  rw [update_boundary] at h
  cases hobjs : d.boundary_objects with
  | none =>
    rw [hobjs] at h
    exact Except.noConfusion h
  | some objs =>
    rw [hobjs] at h
    rw [← hobjs]
    exact foldlM_qonly _ (fun dd p dd' hp => update_boundary_entry_shell dd p.1 p.2 dd' hp)
      objs.enum d d' h

lemma update_ghosts_shell (d d' : Domain) (h : update_ghosts d = .ok d') :
    d' = { d with quantities := d'.quantities } := by
  rw [update_ghosts] at h
  cases hf : d.full_send_dict.lookup d.processor with
  | none =>
    rw [hf] at h
    obtain rfl : d = d' := by simpa using h
    rfl
  | some idf =>
    rw [hf] at h
    cases hg : d.ghost_recv_dict.lookup d.processor with
    | none =>
      rw [hg] at h
      exact Except.noConfusion h
    | some idg =>
      rw [hg] at h
      obtain rfl := (by simpa using h : _ = d')
      rfl

lemma distribute_shell (K : Kernels) (d d' : Domain)
    (h : distribute_to_vertices_and_edges K d = .ok d') :
    d' = { d with quantities := d'.quantities } := by
  rw [distribute_to_vertices_and_edges] at h
  by_cases h1 : d._order_ = 1
  · rw [if_pos h1] at h
    obtain rfl := (by simpa using h : _ = d')
    rfl
  · rw [if_neg h1] at h
    by_cases h2 : d._order_ = 2
    · rw [if_pos h2] at h
      obtain rfl := (by simpa using h : _ = d')
      rfl
    · rw [if_neg h2] at h
      exact Except.noConfusion h

/-- A `quantities`-only update preserves the whole time state. -/
lemma qonly_clock {a b : Domain} (h : a = { b with quantities := a.quantities }) :
    a.time = b.time ∧ a.timestep = b.timestep ∧ a.yieldtime = b.yieldtime := by
  rw [h]
  exact ⟨rfl, rfl, rfl⟩

lemma lookup_map_keyed (g : String → Quantity → Quantity) :
    ∀ (l : List (String × Quantity)) (k : String),
      (l.map (fun kv => (kv.1, g kv.1 kv.2))).lookup k = (l.lookup k).map (g k) := by
  intro l k
  induction l with
  | nil => rfl
  | cons a l ih =>
    simp only [List.map_cons, List.lookup]
    cases hk : k == a.1 with
    | false => exact ih
    | true =>
      have hka : k = a.1 := beq_iff_eq.mp hk
      subst hka
      rfl

lemma zip_map_getD (a b : ℚ) (l1 l2 : List ℚ) (i : ℕ) (h1 : i < l1.length)
    (h2 : i < l2.length) :
    ((l1.zip l2).map (fun q => a * q.1 + b * q.2)).getD i 0 =
      a * l1.getD i 0 + b * l2.getD i 0 := by
  have hz : i < (l1.zip l2).length := by
    rw [List.length_zip]
    omega
  have hm : i < ((l1.zip l2).map (fun q => a * q.1 + b * q.2)).length := by
    simpa using hz
  rw [List.getD_eq_getElem _ _ hm, List.getD_eq_getElem _ _ h1,
    List.getD_eq_getElem _ _ h2]
  simp

/-- The saxpy combination, per conserved quantity and cell:
`C[i] = a·C[i] + b·S[i]`. -/
lemma saxpy_conserved_spec (dd : Domain) (a b : ℚ) (name : String) (Q : Quantity)
    (hmem : name ∈ dd.conserved_quantities)
    (hQ : dd.quantities.lookup name = some Q)
    (hlen : Q.centroid_backup_values.length = Q.centroid_values.length) :
    ∃ Q', (saxpy_conserved_quantities dd a b).quantities.lookup name = some Q' ∧
      Q'.centroid_values.length = Q.centroid_values.length ∧
      ∀ i, i < Q.centroid_values.length →
        Q'.centroid_values.getD i 0 =
          a * Q.centroid_values.getD i 0 + b * Q.centroid_backup_values.getD i 0 := by
  refine ⟨Q.saxpy_centroid_values a b, ?_, ?_, ?_⟩
  · show (dd.quantities.map _).lookup name = _
    rw [lookup_map_keyed (fun k q =>
      if k ∈ dd.conserved_quantities then q.saxpy_centroid_values a b else q)
      dd.quantities name, hQ]
    simp [hmem]
  · show ((Q.centroid_values.zip Q.centroid_backup_values).map _).length = _
    rw [List.length_map, List.length_zip, hlen, min_self]
  · intro i hi
    show ((Q.centroid_values.zip Q.centroid_backup_values).map _).getD i 0 = _
    exact zip_map_getD a b _ _ i hi (hlen ▸ hi)

/-- The backup step copies the centroid values into the backup buffer, per
conserved quantity. -/
lemma backup_conserved_spec (dd : Domain) (name : String) (Q : Quantity)
    (hmem : name ∈ dd.conserved_quantities)
    (hQ : dd.quantities.lookup name = some Q) :
    (backup_conserved_quantities dd).quantities.lookup name =
      some { Q with centroid_backup_values := Q.centroid_values } := by
  show (dd.quantities.map _).lookup name = _
  rw [lookup_map_keyed (fun k q =>
    if k ∈ dd.conserved_quantities then q.backup_centroid_values else q)
    dd.quantities name, hQ]
  simp [hmem]
  rfl

lemma except_bind_ok {α β : Type} {x : Except String α} {f : α → Except String β}
    {b : β} (h : x >>= f = .ok b) : ∃ a, x = .ok a ∧ f a = .ok b := by
  cases x with
  | error e => simp [bind, Except.bind] at h
  | ok a =>
    refine ⟨a, rfl, ?_⟩
    simpa [bind, Except.bind] using h

lemma except_map_ok {α β : Type} {x : Except String α} {g : α → β} {b : β}
    (h : x.map g = .ok b) : ∃ a, x = .ok a ∧ g a = b := by
  cases x with
  | error e => simp [Except.map] at h
  | ok a =>
    refine ⟨a, rfl, ?_⟩
    simpa [Except.map] using h

lemma tracedE_ok {e : Ev} {f : Domain → Except String Domain} {p : Domain × List Ev}
    {q : Domain × List Ev} (h : tracedE e f p = .ok q) :
    ∃ d2, f p.1 = .ok d2 ∧ q = (d2, p.2 ++ [e]) := by
  obtain ⟨d2, h1, h2⟩ := except_map_ok (by simpa [tracedE] using h)
  exact ⟨d2, h1, h2.symm⟩

set_option maxHeartbeats 3200000 in
/-- Claim C7: one RK3 step, starting at time `t0 = d.time` with the timestep
`Δt` chosen by the single `update_timestep` call of its first Euler sub-step,
combines centroid states as `Q ← ¼·Q² + ¾·S` after the second sub-step and
sets `time = t0 + Δt/2`, then combines `Q ← ⅔·Q³ + ⅓·S` after the third
sub-step and sets `time = t0 + Δt`; both combines are followed by ghost,
vertex/edge-reconstruction and boundary refresh, in that order, and no later
sub-step calls `update_timestep` (the recorded trace holds exactly one
`update_timestep` event).  `saxpy_conserved_quantities a b` realises
`C = a·C + b·S` per conserved quantity, with `S` installed by the `backup`
at the start of the step.  The kernel hypotheses say the external flux and
forcing computations do not touch the clock. -/
theorem evolve_one_rk3_step_spec (K : Kernels) (d : Domain) (ys : ℚ)
    (ft : Option ℚ)
    (hcf : ∀ dd, (K.compute_fluxes dd).time = dd.time ∧
      (K.compute_fluxes dd).timestep = dd.timestep)
    (hforce : ∀ dd, (K.compute_forcing_terms dd).time = dd.time ∧
      (K.compute_forcing_terms dd).timestep = dd.timestep) :
    (∀ d1 tr, evolve_one_rk3_step K d ys ft = .ok (d1, tr) →
      ∃ dt, d1.timestep = dt ∧ d1.time = d.time + dt ∧
        tr = [.backup, .compute_fluxes, .compute_forcing_terms, .update_timestep,
              .update_conserved, .update_ghosts, .set_time (d.time + dt),
              .distribute, .update_boundary,
              .compute_fluxes, .compute_forcing_terms, .update_conserved,
              .saxpy (1/4) (3/4), .update_ghosts, .set_time (d.time + dt / 2),
              .distribute, .update_boundary,
              .compute_fluxes, .compute_forcing_terms, .update_conserved,
              .saxpy (2/3) (1/3), .update_ghosts, .set_time (d.time + dt),
              .distribute, .update_boundary] ∧
        tr.count .update_timestep = 1) ∧
    (∀ (dd : Domain) (a b : ℚ) (name : String) (Q : Quantity),
      name ∈ dd.conserved_quantities → dd.quantities.lookup name = some Q →
      Q.centroid_backup_values.length = Q.centroid_values.length →
      ∃ Q', (saxpy_conserved_quantities dd a b).quantities.lookup name = some Q' ∧
        Q'.centroid_values.length = Q.centroid_values.length ∧
        ∀ i, i < Q.centroid_values.length →
          Q'.centroid_values.getD i 0 =
            a * Q.centroid_values.getD i 0 + b * Q.centroid_backup_values.getD i 0) ∧
    (∀ (dd : Domain) (name : String) (Q : Quantity),
      name ∈ dd.conserved_quantities → dd.quantities.lookup name = some Q →
      (backup_conserved_quantities dd).quantities.lookup name =
        some { Q with centroid_backup_values := Q.centroid_values }) := by
  refine ⟨?_, saxpy_conserved_spec, backup_conserved_spec⟩
  intro d1 tr hok
  rw [evolve_one_rk3_step] at hok
  obtain ⟨p3, h3x, hok⟩ := except_bind_ok hok
  obtain ⟨d3, h3f, hp3⟩ := tracedE_ok h3x
  subst hp3
  have h3 : update_timestep
      (K.compute_forcing_terms (K.compute_fluxes (backup_conserved_quantities d)))
      ys ft = .ok d3 := h3f
  obtain ⟨p5, h5x, hok⟩ := except_bind_ok hok
  obtain ⟨d5, h5f, hp5⟩ := tracedE_ok h5x
  subst hp5
  have h5 : update_ghosts (update_conserved_quantities K d3) = .ok d5 := h5f
  obtain ⟨p7, h7x, hok⟩ := except_bind_ok hok
  obtain ⟨d7, h7f, hp7⟩ := tracedE_ok h7x
  subst hp7
  have h7 : distribute_to_vertices_and_edges K
      { d5 with time := d5.time + d5.timestep } = .ok d7 := h7f
  obtain ⟨p8, h8x, hok⟩ := except_bind_ok hok
  obtain ⟨d8, h8f, hp8⟩ := tracedE_ok h8x
  subst hp8
  have h8 : update_boundary d7 = .ok d8 := h8f
  obtain ⟨p13, h13x, hok⟩ := except_bind_ok hok
  obtain ⟨d13, h13f, hp13⟩ := tracedE_ok h13x
  subst hp13
  have h13 : update_ghosts (saxpy_conserved_quantities
      (update_conserved_quantities K
        (K.compute_forcing_terms (K.compute_fluxes d8))) (1/4) (3/4)) =
      .ok d13 := h13f
  obtain ⟨p15, h15x, hok⟩ := except_bind_ok hok
  obtain ⟨d15, h15f, hp15⟩ := tracedE_ok h15x
  subst hp15
  have h15 : distribute_to_vertices_and_edges K
      { d13 with time := d.time + d13.timestep * (1/2) } = .ok d15 := h15f
  obtain ⟨p16, h16x, hok⟩ := except_bind_ok hok
  obtain ⟨d16, h16f, hp16⟩ := tracedE_ok h16x
  subst hp16
  have h16 : update_boundary d15 = .ok d16 := h16f
  obtain ⟨p21, h21x, hok⟩ := except_bind_ok hok
  obtain ⟨d21, h21f, hp21⟩ := tracedE_ok h21x
  subst hp21
  have h21 : update_ghosts (saxpy_conserved_quantities
      (update_conserved_quantities K
        (K.compute_forcing_terms (K.compute_fluxes d16))) (2/3) (1/3)) =
      .ok d21 := h21f
  obtain ⟨p23, h23x, hok⟩ := except_bind_ok hok
  obtain ⟨d23, h23f, hp23⟩ := tracedE_ok h23x
  subst hp23
  have h23 : distribute_to_vertices_and_edges K
      { d21 with time := d.time + d21.timestep } = .ok d23 := h23f
  obtain ⟨d24, h24f, hp24⟩ := tracedE_ok hok
  have h24 : update_boundary d23 = .ok d24 := h24f
  rw [Prod.mk.injEq] at hp24
  obtain ⟨hd1, htr⟩ := hp24
  subst hd1
  -- clock bookkeeping
  obtain ⟨h3t, _, _, _, _, _⟩ := update_timestep_ok_spec _ ys ft d3 h3
  have t3 : d3.time = d.time := by
    rw [h3t, (hforce _).1, (hcf _).1]
    rfl
  obtain ⟨t5x, ts5x, _⟩ := qonly_clock (update_ghosts_shell _ d5 h5)
  have t5 : d5.time = d.time := by rw [t5x]; exact t3
  have ts5 : d5.timestep = d3.timestep := by rw [ts5x]; rfl
  obtain ⟨t7x, ts7x, _⟩ := qonly_clock (distribute_shell K _ d7 h7)
  have t7 : d7.time = d.time + d3.timestep := by
    rw [t7x]
    show d5.time + d5.timestep = _
    rw [t5, ts5]
  have ts7 : d7.timestep = d3.timestep := by rw [ts7x]; exact ts5
  obtain ⟨t8x, ts8x, _⟩ := qonly_clock (update_boundary_shell d7 d8 h8)
  have ts8 : d8.timestep = d3.timestep := by rw [ts8x]; exact ts7
  obtain ⟨t13x, ts13x, _⟩ := qonly_clock (update_ghosts_shell _ d13 h13)
  have ts13 : d13.timestep = d3.timestep := by
    rw [ts13x]
    show (K.compute_forcing_terms (K.compute_fluxes d8)).timestep = _
    rw [(hforce _).2, (hcf _).2]
    exact ts8
  obtain ⟨t15x, ts15x, _⟩ := qonly_clock (distribute_shell K _ d15 h15)
  have ts15 : d15.timestep = d3.timestep := by rw [ts15x]; exact ts13
  obtain ⟨t16x, ts16x, _⟩ := qonly_clock (update_boundary_shell d15 d16 h16)
  have ts16 : d16.timestep = d3.timestep := by rw [ts16x]; exact ts15
  obtain ⟨t21x, ts21x, _⟩ := qonly_clock (update_ghosts_shell _ d21 h21)
  have ts21 : d21.timestep = d3.timestep := by
    rw [ts21x]
    show (K.compute_forcing_terms (K.compute_fluxes d16)).timestep = _
    rw [(hforce _).2, (hcf _).2]
    exact ts16
  obtain ⟨t23x, ts23x, _⟩ := qonly_clock (distribute_shell K _ d23 h23)
  have t23 : d23.time = d.time + d3.timestep := by
    rw [t23x]
    show d.time + d21.timestep = _
    rw [ts21]
  have ts23 : d23.timestep = d3.timestep := by rw [ts23x]; exact ts21
  obtain ⟨t24x, ts24x, _⟩ := qonly_clock (update_boundary_shell d23 d1 h24)
  have t24 : d1.time = d.time + d3.timestep := by rw [t24x]; exact t23
  have ts24 : d1.timestep = d3.timestep := by rw [ts24x]; exact ts23
  have hbt : (backup_conserved_quantities d).time = d.time := rfl
  refine ⟨d3.timestep, ts24, t24, htr.trans ?_, ?_⟩
  · simp only [tracedP, List.nil_append, List.append_assoc, List.cons_append,
      List.singleton_append]
    simp only [t5, ts5, ts13, ts21, mul_one_div, hbt]
  · rw [htr]
    simp only [tracedP, List.nil_append, List.append_assoc, List.cons_append,
      List.singleton_append]
    simp [List.count_cons, List.count_nil, beq_iff_eq]

/-- Identity kernels: external compute steps that change nothing, used to
exercise the scheme-step drivers on concrete domains. -/
def KId : Kernels where
  compute_fluxes := id
  compute_forcing_terms := id
  quantity_update := fun _ q => q
  extrapolate_first_order := id
  extrapolate_second_order := id

/-- A concrete domain on which one RK3 step succeeds: no boundary objects,
first-order extrapolation, protection off, CFL timestep 1 within the clamps. -/
def dC7 : Domain :=
  { baseDomain with boundary_objects := some [], flux_timestep := 1, yieldtime := 5 }

theorem evolve_one_rk3_step_spec_witness :
    ∃ d1 tr dt, evolve_one_rk3_step KId dC7 2 none = Except.ok (d1, tr) ∧
      d1.timestep = dt ∧ d1.time = dC7.time + dt ∧
      tr.count Ev.update_timestep = 1 := by
  obtain ⟨hrun, -, -⟩ := evolve_one_rk3_step_spec KId dC7 2 none
    (fun dd => ⟨rfl, rfl⟩) (fun dd => ⟨rfl, rfl⟩)
  obtain ⟨p, hp⟩ : ∃ p, evolve_one_rk3_step KId dC7 2 none = .ok p :=
    ⟨_, by with_unfolding_all rfl⟩
  obtain ⟨dt, h1, h2, h3, h4⟩ := hrun p.1 p.2 (by rw [hp])
  exact ⟨p.1, p.2, dt, by rw [hp], h1, h2, h4⟩

/-- The external flux/forcing kernels leave the clock fields of the domain
(time, timestep, yieldtime) alone; set_quantity-style state is all they touch. -/
def clock_frame (f : Domain → Domain) : Prop :=
  ∀ dd, (f dd).time = dd.time ∧ (f dd).timestep = dd.timestep ∧
    (f dd).yieldtime = dd.yieldtime

lemma evolve_one_euler_step_clock (K : Kernels) (d : Domain) (ys : ℚ)
    (ft : Option ℚ) (hcf : clock_frame K.compute_fluxes)
    (hforce : clock_frame K.compute_forcing_terms) (d1 : Domain) (tr : List Ev)
    (hok : evolve_one_euler_step K d ys ft = .ok (d1, tr)) :
    d1.yieldtime = d.yieldtime ∧
    ∃ dt, dt ≤ d.yieldtime - d.time ∧ d1.time = d.time + dt := by
  rw [evolve_one_euler_step] at hok
  obtain ⟨p3, h3x, hok⟩ := except_bind_ok hok
  obtain ⟨d3, h3f, hp3⟩ := tracedE_ok h3x
  subst hp3
  have h3 : update_timestep (K.compute_forcing_terms (K.compute_fluxes d)) ys ft =
      .ok d3 := h3f
  obtain ⟨p5, h5x, hok⟩ := except_bind_ok hok
  obtain ⟨d5, h5f, hp5⟩ := tracedE_ok h5x
  subst hp5
  have h5 : update_ghosts (update_conserved_quantities K d3) = .ok d5 := h5f
  obtain ⟨p7, h7x, hok⟩ := except_bind_ok hok
  obtain ⟨d7, h7f, hp7⟩ := tracedE_ok h7x
  subst hp7
  have h7 : distribute_to_vertices_and_edges K
      { d5 with time := d5.time + d5.timestep } = .ok d7 := h7f
  obtain ⟨d8, h8f, hp8⟩ := tracedE_ok hok
  have h8 : update_boundary d7 = .ok d8 := h8f
  rw [Prod.mk.injEq] at hp8
  obtain ⟨hd1, htr⟩ := hp8
  subst hd1
  have tF : (K.compute_forcing_terms (K.compute_fluxes d)).time = d.time := by
    rw [(hforce _).1, (hcf _).1]
  have yF : (K.compute_forcing_terms (K.compute_fluxes d)).yieldtime = d.yieldtime := by
    rw [(hforce _).2.2, (hcf _).2.2]
  obtain ⟨h3t, h3y, _, _, _, h3ts⟩ := update_timestep_ok_spec _ ys ft d3 h3
  have t3 : d3.time = d.time := by rw [h3t, tF]
  have y3 : d3.yieldtime = d.yieldtime := by rw [h3y, yF]
  rw [tF, yF] at h3ts
  have hdt : d3.timestep ≤ d.yieldtime - d.time := by
    rw [h3ts]
    exact min_le_right _ _
  obtain ⟨t5x, ts5x, y5x⟩ := qonly_clock (update_ghosts_shell _ d5 h5)
  have t5 : d5.time = d.time := by rw [t5x]; exact t3
  have ts5 : d5.timestep = d3.timestep := by rw [ts5x]; rfl
  have y5 : d5.yieldtime = d.yieldtime := by rw [y5x]; exact y3
  obtain ⟨t7x, ts7x, y7x⟩ := qonly_clock (distribute_shell K _ d7 h7)
  have t7 : d7.time = d.time + d3.timestep := by
    rw [t7x]
    show d5.time + d5.timestep = _
    rw [t5, ts5]
  have y7 : d7.yieldtime = d.yieldtime := by rw [y7x]; exact y5
  obtain ⟨t8x, ts8x, y8x⟩ := qonly_clock (update_boundary_shell d7 d1 h8)
  have t8 : d1.time = d.time + d3.timestep := by rw [t8x]; exact t7
  have y8 : d1.yieldtime = d.yieldtime := by rw [y8x]; exact y7
  exact ⟨y8, d3.timestep, hdt, t8⟩

lemma evolve_one_rk2_step_clock (K : Kernels) (d : Domain) (ys : ℚ)
    (ft : Option ℚ) (hcf : clock_frame K.compute_fluxes)
    (hforce : clock_frame K.compute_forcing_terms) (d1 : Domain) (tr : List Ev)
    (hok : evolve_one_rk2_step K d ys ft = .ok (d1, tr)) :
    d1.yieldtime = d.yieldtime ∧
    ∃ dt, dt ≤ d.yieldtime - d.time ∧ d1.time = d.time + dt := by
  rw [evolve_one_rk2_step] at hok
  obtain ⟨p3, h3x, hok⟩ := except_bind_ok hok
  obtain ⟨d3, h3f, hp3⟩ := tracedE_ok h3x
  subst hp3
  have h3 : update_timestep
      (K.compute_forcing_terms (K.compute_fluxes (backup_conserved_quantities d)))
      ys ft = .ok d3 := h3f
  obtain ⟨p5, h5x, hok⟩ := except_bind_ok hok
  obtain ⟨d5, h5f, hp5⟩ := tracedE_ok h5x
  subst hp5
  have h5 : update_ghosts (update_conserved_quantities K d3) = .ok d5 := h5f
  obtain ⟨p7, h7x, hok⟩ := except_bind_ok hok
  obtain ⟨d7, h7f, hp7⟩ := tracedE_ok h7x
  subst hp7
  have h7 : distribute_to_vertices_and_edges K
      { d5 with time := d5.time + d5.timestep } = .ok d7 := h7f
  obtain ⟨p8, h8x, hok⟩ := except_bind_ok hok
  obtain ⟨d8, h8f, hp8⟩ := tracedE_ok h8x
  subst hp8
  have h8 : update_boundary d7 = .ok d8 := h8f
  obtain ⟨p13, h13x, hok⟩ := except_bind_ok hok
  obtain ⟨d13, h13f, hp13⟩ := tracedE_ok h13x
  subst hp13
  have h13 : update_ghosts (saxpy_conserved_quantities
      (update_conserved_quantities K
        (K.compute_forcing_terms (K.compute_fluxes d8))) (1/2) (1/2)) =
      .ok d13 := h13f
  obtain ⟨p14, h14x, hok⟩ := except_bind_ok hok
  obtain ⟨d14, h14f, hp14⟩ := tracedE_ok h14x
  subst hp14
  have h14 : distribute_to_vertices_and_edges K d13 = .ok d14 := h14f
  obtain ⟨d15, h15f, hp15⟩ := tracedE_ok hok
  have h15 : update_boundary d14 = .ok d15 := h15f
  rw [Prod.mk.injEq] at hp15
  obtain ⟨hd1, htr⟩ := hp15
  subst hd1
  have tF : (K.compute_forcing_terms
      (K.compute_fluxes (backup_conserved_quantities d))).time = d.time := by
    rw [(hforce _).1, (hcf _).1]
    rfl
  have yF : (K.compute_forcing_terms
      (K.compute_fluxes (backup_conserved_quantities d))).yieldtime = d.yieldtime := by
    rw [(hforce _).2.2, (hcf _).2.2]
    rfl
  obtain ⟨h3t, h3y, _, _, _, h3ts⟩ := update_timestep_ok_spec _ ys ft d3 h3
  have t3 : d3.time = d.time := by rw [h3t, tF]
  have y3 : d3.yieldtime = d.yieldtime := by rw [h3y, yF]
  rw [tF, yF] at h3ts
  have hdt : d3.timestep ≤ d.yieldtime - d.time := by
    rw [h3ts]
    exact min_le_right _ _
  obtain ⟨t5x, ts5x, y5x⟩ := qonly_clock (update_ghosts_shell _ d5 h5)
  have t5 : d5.time = d.time := by rw [t5x]; exact t3
  have ts5 : d5.timestep = d3.timestep := by rw [ts5x]; rfl
  have y5 : d5.yieldtime = d.yieldtime := by rw [y5x]; exact y3
  obtain ⟨t7x, ts7x, y7x⟩ := qonly_clock (distribute_shell K _ d7 h7)
  have t7 : d7.time = d.time + d3.timestep := by
    rw [t7x]
    show d5.time + d5.timestep = _
    rw [t5, ts5]
  have y7 : d7.yieldtime = d.yieldtime := by rw [y7x]; exact y5
  obtain ⟨t8x, ts8x, y8x⟩ := qonly_clock (update_boundary_shell d7 d8 h8)
  have t8 : d8.time = d.time + d3.timestep := by rw [t8x]; exact t7
  have y8 : d8.yieldtime = d.yieldtime := by rw [y8x]; exact y7
  obtain ⟨t13x, ts13x, y13x⟩ := qonly_clock (update_ghosts_shell _ d13 h13)
  have t13 : d13.time = d.time + d3.timestep := by
    rw [t13x]
    show (K.compute_forcing_terms (K.compute_fluxes d8)).time = _
    rw [(hforce _).1, (hcf _).1]
    exact t8
  have y13 : d13.yieldtime = d.yieldtime := by
    rw [y13x]
    show (K.compute_forcing_terms (K.compute_fluxes d8)).yieldtime = _
    rw [(hforce _).2.2, (hcf _).2.2]
    exact y8
  obtain ⟨t14x, ts14x, y14x⟩ := qonly_clock (distribute_shell K _ d14 h14)
  have t14 : d14.time = d.time + d3.timestep := by rw [t14x]; exact t13
  have y14 : d14.yieldtime = d.yieldtime := by rw [y14x]; exact y13
  obtain ⟨t15x, ts15x, y15x⟩ := qonly_clock (update_boundary_shell d14 d1 h15)
  have t15 : d1.time = d.time + d3.timestep := by rw [t15x]; exact t14
  have y15 : d1.yieldtime = d.yieldtime := by rw [y15x]; exact y14
  exact ⟨y15, d3.timestep, hdt, t15⟩

set_option maxHeartbeats 3200000 in
lemma evolve_one_rk3_step_clock (K : Kernels) (d : Domain) (ys : ℚ)
    (ft : Option ℚ) (hcf : clock_frame K.compute_fluxes)
    (hforce : clock_frame K.compute_forcing_terms) (d1 : Domain) (tr : List Ev)
    (hok : evolve_one_rk3_step K d ys ft = .ok (d1, tr)) :
    d1.yieldtime = d.yieldtime ∧
    ∃ dt, dt ≤ d.yieldtime - d.time ∧ d1.time = d.time + dt := by
  rw [evolve_one_rk3_step] at hok
  obtain ⟨p3, h3x, hok⟩ := except_bind_ok hok
  obtain ⟨d3, h3f, hp3⟩ := tracedE_ok h3x
  subst hp3
  have h3 : update_timestep
      (K.compute_forcing_terms (K.compute_fluxes (backup_conserved_quantities d)))
      ys ft = .ok d3 := h3f
  obtain ⟨p5, h5x, hok⟩ := except_bind_ok hok
  obtain ⟨d5, h5f, hp5⟩ := tracedE_ok h5x
  subst hp5
  obtain ⟨p7, h7x, hok⟩ := except_bind_ok hok
  obtain ⟨d7, h7f, hp7⟩ := tracedE_ok h7x
  subst hp7
  obtain ⟨p8, h8x, hok⟩ := except_bind_ok hok
  obtain ⟨d8, h8f, hp8⟩ := tracedE_ok h8x
  subst hp8
  have h8 : update_boundary d7 = .ok d8 := h8f
  obtain ⟨p13, h13x, hok⟩ := except_bind_ok hok
  obtain ⟨d13, h13f, hp13⟩ := tracedE_ok h13x
  subst hp13
  have h13 : update_ghosts (saxpy_conserved_quantities
      (update_conserved_quantities K
        (K.compute_forcing_terms (K.compute_fluxes d8))) (1/4) (3/4)) =
      .ok d13 := h13f
  obtain ⟨p15, h15x, hok⟩ := except_bind_ok hok
  obtain ⟨d15, h15f, hp15⟩ := tracedE_ok h15x
  subst hp15
  have h15 : distribute_to_vertices_and_edges K
      { d13 with time := d.time + d13.timestep * (1/2) } = .ok d15 := h15f
  obtain ⟨p16, h16x, hok⟩ := except_bind_ok hok
  obtain ⟨d16, h16f, hp16⟩ := tracedE_ok h16x
  subst hp16
  have h16 : update_boundary d15 = .ok d16 := h16f
  obtain ⟨p21, h21x, hok⟩ := except_bind_ok hok
  obtain ⟨d21, h21f, hp21⟩ := tracedE_ok h21x
  subst hp21
  have h21 : update_ghosts (saxpy_conserved_quantities
      (update_conserved_quantities K
        (K.compute_forcing_terms (K.compute_fluxes d16))) (2/3) (1/3)) =
      .ok d21 := h21f
  obtain ⟨p23, h23x, hok⟩ := except_bind_ok hok
  obtain ⟨d23, h23f, hp23⟩ := tracedE_ok h23x
  subst hp23
  have h23 : distribute_to_vertices_and_edges K
      { d21 with time := d.time + d21.timestep } = .ok d23 := h23f
  obtain ⟨d24, h24f, hp24⟩ := tracedE_ok hok
  have h24 : update_boundary d23 = .ok d24 := h24f
  rw [Prod.mk.injEq] at hp24
  obtain ⟨hd1, htr⟩ := hp24
  subst hd1
  have tF : (K.compute_forcing_terms
      (K.compute_fluxes (backup_conserved_quantities d))).time = d.time := by
    rw [(hforce _).1, (hcf _).1]
    rfl
  have yF : (K.compute_forcing_terms
      (K.compute_fluxes (backup_conserved_quantities d))).yieldtime = d.yieldtime := by
    rw [(hforce _).2.2, (hcf _).2.2]
    rfl
  obtain ⟨h3t, h3y, _, _, _, h3ts⟩ := update_timestep_ok_spec _ ys ft d3 h3
  rw [tF, yF] at h3ts
  have hdt : d3.timestep ≤ d.yieldtime - d.time := by
    rw [h3ts]
    exact min_le_right _ _
  have y3 : d3.yieldtime = d.yieldtime := by rw [h3y, yF]
  obtain ⟨t5x, ts5x, y5x⟩ := qonly_clock (update_ghosts_shell _ d5 h5f)
  have ts5 : d5.timestep = d3.timestep := by rw [ts5x]; rfl
  have y5 : d5.yieldtime = d.yieldtime := by rw [y5x]; exact y3
  obtain ⟨t7x, ts7x, y7x⟩ := qonly_clock (distribute_shell K _ d7 h7f)
  have ts7 : d7.timestep = d3.timestep := by rw [ts7x]; exact ts5
  have y7 : d7.yieldtime = d.yieldtime := by rw [y7x]; exact y5
  obtain ⟨t8x, ts8x, y8x⟩ := qonly_clock (update_boundary_shell d7 d8 h8)
  have ts8 : d8.timestep = d3.timestep := by rw [ts8x]; exact ts7
  have y8 : d8.yieldtime = d.yieldtime := by rw [y8x]; exact y7
  obtain ⟨t13x, ts13x, y13x⟩ := qonly_clock (update_ghosts_shell _ d13 h13)
  have ts13 : d13.timestep = d3.timestep := by
    rw [ts13x]
    show (K.compute_forcing_terms (K.compute_fluxes d8)).timestep = _
    rw [(hforce _).2.1, (hcf _).2.1]
    exact ts8
  have y13 : d13.yieldtime = d.yieldtime := by
    rw [y13x]
    show (K.compute_forcing_terms (K.compute_fluxes d8)).yieldtime = _
    rw [(hforce _).2.2, (hcf _).2.2]
    exact y8
  obtain ⟨t15x, ts15x, y15x⟩ := qonly_clock (distribute_shell K _ d15 h15)
  have ts15 : d15.timestep = d3.timestep := by rw [ts15x]; exact ts13
  have y15 : d15.yieldtime = d.yieldtime := by rw [y15x]; exact y13
  obtain ⟨t16x, ts16x, y16x⟩ := qonly_clock (update_boundary_shell d15 d16 h16)
  have ts16 : d16.timestep = d3.timestep := by rw [ts16x]; exact ts15
  have y16 : d16.yieldtime = d.yieldtime := by rw [y16x]; exact y15
  obtain ⟨t21x, ts21x, y21x⟩ := qonly_clock (update_ghosts_shell _ d21 h21)
  have ts21 : d21.timestep = d3.timestep := by
    rw [ts21x]
    show (K.compute_forcing_terms (K.compute_fluxes d16)).timestep = _
    rw [(hforce _).2.1, (hcf _).2.1]
    exact ts16
  have y21 : d21.yieldtime = d.yieldtime := by
    rw [y21x]
    show (K.compute_forcing_terms (K.compute_fluxes d16)).yieldtime = _
    rw [(hforce _).2.2, (hcf _).2.2]
    exact y16
  obtain ⟨t23x, ts23x, y23x⟩ := qonly_clock (distribute_shell K _ d23 h23)
  have t23 : d23.time = d.time + d3.timestep := by
    rw [t23x]
    show d.time + d21.timestep = _
    rw [ts21]
  have y23 : d23.yieldtime = d.yieldtime := by rw [y23x]; exact y21
  obtain ⟨t24x, ts24x, y24x⟩ := qonly_clock (update_boundary_shell d23 d1 h24)
  have t24 : d1.time = d.time + d3.timestep := by rw [t24x]; exact t23
  have y24 : d1.yieldtime = d.yieldtime := by rw [y24x]; exact y23
  exact ⟨y24, d3.timestep, hdt, t24⟩

lemma evolve_dispatch_clock (K : Kernels) (ys : ℚ) (ft : Option ℚ) (d : Domain)
    (hcf : clock_frame K.compute_fluxes) (hforce : clock_frame K.compute_forcing_terms)
    (hinv : d.time ≤ d.yieldtime) (d1 : Domain) (tr : List Ev)
    (hok : evolve_dispatch K ys ft d = .ok (d1, tr)) :
    d1.time ≤ d.yieldtime ∧ d1.yieldtime = d.yieldtime := by
  rw [evolve_dispatch] at hok
  by_cases h1 : get_timestepping_method d = "euler"
  · rw [if_pos h1] at hok
    obtain ⟨hy, dt, hdt, ht⟩ := evolve_one_euler_step_clock K d ys ft hcf hforce d1 tr hok
    refine ⟨?_, hy⟩
    rw [ht]
    linarith
  · rw [if_neg h1] at hok
    by_cases h2 : get_timestepping_method d = "rk2"
    · rw [if_pos h2] at hok
      obtain ⟨hy, dt, hdt, ht⟩ := evolve_one_rk2_step_clock K d ys ft hcf hforce d1 tr hok
      refine ⟨?_, hy⟩
      rw [ht]
      linarith
    · rw [if_neg h2] at hok
      by_cases h3 : get_timestepping_method d = "rk3"
      · rw [if_pos h3] at hok
        obtain ⟨hy, dt, hdt, ht⟩ := evolve_one_rk3_step_clock K d ys ft hcf hforce d1 tr hok
        refine ⟨?_, hy⟩
        rw [ht]
        linarith
      · rw [if_neg h3] at hok
        obtain ⟨hd, -⟩ : d = d1 ∧ ([] : List Ev) = tr := by
          simpa [Prod.mk.injEq] using hok
        subst hd
        exact ⟨hinv, rfl⟩

lemma evolve_loop_yields (K : Kernels) (ys : ℚ) (ft : Option ℚ)
    (hcf : clock_frame K.compute_fluxes) (hforce : clock_frame K.compute_forcing_terms)
    (hys : 0 < ys) (t0 : ℚ) :
    ∀ (fuel : ℕ) (d : Domain) (k0 : ℕ),
      d.time ≤ d.yieldtime → d.yieldtime = t0 + ((k0 : ℚ) + 1) * ys →
      ∀ y ∈ (evolve_loop K ys ft fuel d).1,
        (∃ k : ℕ, y = t0 + ((k : ℚ) + 1) * ys) ∨ (∃ f, ft = some f ∧ y = f) := by
  intro fuel
  induction fuel with
  | zero =>
    intro d k0 _ _ y hy
    simp [evolve_loop] at hy
  | succ n ih =>
    intro d k0 hinv hyt y hy
    rw [evolve_loop] at hy
    cases hdisp : evolve_dispatch K ys ft d with
    | error msg =>
      rw [hdisp] at hy
      simp at hy
    | ok p =>
      obtain ⟨d1, tr⟩ := p
      rw [hdisp] at hy
      simp only at hy
      obtain ⟨ht1, hy1⟩ := evolve_dispatch_clock K ys ft d hcf hforce hinv d1 tr hdisp
      cases hfc : evolve_final_check ft (evolve_bump d1) with
      | some r =>
        rw [hfc] at hy
        cases hft : ft with
        | none =>
          rw [hft] at hfc
          exact absurd hfc (by simp [evolve_final_check])
        | some f =>
          rw [hft] at hfc
          simp only [evolve_final_check] at hfc
          split at hfc
          · split at hfc
            · obtain rfl : ([], EvolveOutcome.failed
                  "WARNING (domain.py): time overshot finaltime.") = r := by
                simpa using hfc
              simp at hy
            · obtain rfl : ([f], EvolveOutcome.finished) = r := by
                simpa using hfc
              simp at hy
              exact Or.inr ⟨f, rfl, hy⟩
          · exact absurd hfc (by simp)
      | none =>
        rw [hfc] at hy
        by_cases hyield : (evolve_bump d1).yieldtime ≤ (evolve_bump d1).time
        · rw [if_pos hyield] at hy
          simp only [List.mem_cons] at hy
          have hbt : (evolve_bump d1).time = d1.time := rfl
          have hby : (evolve_bump d1).yieldtime = d1.yieldtime := rfl
          have htime : d1.time = d.yieldtime := by
            refine le_antisymm ht1 ?_
            rw [← hy1]
            rw [hbt, hby] at hyield
            exact hyield
          cases hy with
          | inl hyv =>
            subst hyv
            exact Or.inl ⟨k0, by rw [hbt, htime, hyt]⟩
          | inr hrec =>
            refine ih (evolve_reset ys (evolve_bump d1)) (k0 + 1) ?_ ?_ y hrec
            · show d1.time ≤ (evolve_bump d1).yieldtime + ys
              rw [hby, hy1]
              linarith
            · show (evolve_bump d1).yieldtime + ys = t0 + ((((k0 + 1) : ℕ) : ℚ) + 1) * ys
              rw [hby, hy1, hyt]
              push_cast
              ring
        · rw [if_neg hyield] at hy
          refine ih (evolve_bump d1) k0 ?_ ?_ y hy
          · show d1.time ≤ (evolve_bump d1).yieldtime
            rw [show (evolve_bump d1).yieldtime = d1.yieldtime from rfl, hy1]
            exact ht1
          · show (evolve_bump d1).yieldtime = t0 + ((k0 : ℚ) + 1) * ys
            rw [show (evolve_bump d1).yieldtime = d1.yieldtime from rfl, hy1, hyt]

/-- Claim C3 (amended): the yields of `evolve` align with the *relative* model
time held in `self.time` when `evolve` begins — not with `starttime`.  Under
clock-preserving external kernels and a positive yieldstep, every yielded time
other than the optional initial one equals `time₀ + (k+1)·yieldstep` for some
natural `k`, or equals `finaltime`. -/
theorem evolve_relative_yield_alignment (K : Kernels) (d : Domain) (ysq f : ℚ)
    (skip : Bool) (fuel : ℕ) (yields : List ℚ) (out : EvolveOutcome)
    (hcf : clock_frame K.compute_fluxes)
    (hforce : clock_frame K.compute_forcing_terms)
    (hys : 0 < ysq)
    (hok : evolve K d (some ysq) (some f) none skip fuel = .ok (yields, out)) :
    ∀ y ∈ yields.drop (if skip then 0 else 1),
      (∃ k : ℕ, y = d.time + ((k : ℚ) + 1) * ysq) ∨ y = f := by
  rw [evolve] at hok
  split at hok
  · exact Except.noConfusion hok
  · simp only [Option.getD_some, Option.isSome_some, Option.isSome_none,
      Bool.and_false, Bool.false_eq_true, if_false] at hok
    obtain ⟨dg, hg, hok⟩ := except_bind_ok hok
    obtain ⟨dv, hv, hok⟩ := except_bind_ok hok
    obtain ⟨db, hb, hok⟩ := except_bind_ok hok
    simp only [pure, Except.pure, Except.ok.injEq, Prod.mk.injEq] at hok
    obtain ⟨hyields, -⟩ := hok
    obtain ⟨tgx, -, ygx⟩ := qonly_clock (update_ghosts_shell _ dg hg)
    have tg : dg.time = d.time := by rw [tgx]
    have yg : dg.yieldtime = d.time + ysq := by rw [ygx]
    obtain ⟨tvx, -, yvx⟩ := qonly_clock (distribute_shell K _ dv hv)
    have tv : dv.time = d.time := by rw [tvx]; exact tg
    have yv : dv.yieldtime = d.time + ysq := by rw [yvx]; exact yg
    obtain ⟨tbx, -, ybx⟩ := qonly_clock (update_boundary_shell dv db hb)
    have tb : db.time = d.time := by rw [tbx]; exact tv
    have yb : db.yieldtime = d.time + ysq := by rw [ybx]; exact yv
    intro y hy
    rw [← hyields] at hy
    have hy' : y ∈ (evolve_loop K ysq (some f) fuel db).1 := by
      cases skip with
      | false => simpa using hy
      | true => simpa using hy
    have hres := evolve_loop_yields K ysq (some f) hcf hforce hys d.time fuel db 0
      (by rw [tb, yb]; linarith)
      (by rw [yb]; push_cast; ring) y hy'
    rcases hres with ⟨k, hk⟩ | ⟨f', hf', hyf⟩
    · exact Or.inl ⟨k, hk⟩
    · injection hf' with hf''
      subst hf''
      exact Or.inr hyf

/-- A concrete evolvable domain with a nonzero `starttime`: boundary bound
(to no objects), protection off, first order, CFL timestep well above the
yieldstep so every step lands exactly on the next yieldtime. -/
def dC3 : Domain :=
  { baseDomain with boundary_objects := some [], starttime := 10,
                    flux_timestep := 100 }

/-- Claim C3 counterexample: with `starttime = 10`,
`evolve(yieldstep=0.5, finaltime=12)` does *not* yield
`{10.0, 10.5, 11.0, 11.5, 12.0}`: the generator yields the relative
`self.time`, so its second yield is `0.5`, which is neither of the form
`starttime + k·yieldstep` nor equal to `finaltime`. -/
theorem evolve_yields_not_starttime_aligned :
    ∃ yields, evolve KId dC3 (some (1/2)) (some 12) none false 30 =
        .ok (yields, .finished) ∧
      yields.get? 1 = some (1/2) ∧ dC3.starttime = 10 ∧
      (∀ k : ℕ, (1/2 : ℚ) ≠ 10 + (k : ℚ) * (1/2)) ∧ ((1/2 : ℚ) ≠ 12) := by
  refine ⟨_, by with_unfolding_all rfl, by with_unfolding_all rfl,
    by with_unfolding_all rfl, ?_, by norm_num⟩
  intro k h
  have hk : (0 : ℚ) ≤ (k : ℚ) := Nat.cast_nonneg k
  have hk2 : (0 : ℚ) ≤ (k : ℚ) * (1/2) := by positivity
  linarith

theorem evolve_relative_yield_alignment_witness :
    ∃ yields out, evolve KId dC3 (some (1/2)) (some 12) none false 30 =
        .ok (yields, out) ∧ (0 : ℚ) < 1/2 ∧
      ∀ y ∈ yields.drop 1,
        (∃ k : ℕ, y = dC3.time + ((k : ℚ) + 1) * (1/2)) ∨ y = 12 := by
  obtain ⟨p, hp⟩ : ∃ p, evolve KId dC3 (some (1/2)) (some 12) none false 30 = .ok p :=
    ⟨_, by with_unfolding_all rfl⟩
  refine ⟨p.1, p.2, by rw [hp], by norm_num, ?_⟩
  have hres := evolve_relative_yield_alignment KId dC3 (1/2) 12 false 30 p.1 p.2
    (fun dd => ⟨rfl, rfl, rfl⟩) (fun dd => ⟨rfl, rfl, rfl⟩) (by norm_num) (by rw [hp])
  simpa using hres

end Anuga
